import Mathlib

/-!
Verification development for the Lets-Grid raster engine.

The development shallowly embeds the raster-analysis and compositing core:

* `Detector` — the flood-fill blank-region detector
  (`detectBlankAreas` as defined in `src/app/edit/[id]/page.tsx`):
  grayscale sampling, 4-connectivity flood fill over a visited set,
  component filtering by pixel count / standard deviation / aspect ratio,
  and the iterated overlap-merge of accepted rectangles.
* `CellDetect` — the cell-average blank-region detector
  (`detectBlankAreas` in `src/lib/image-analysis.ts`) with its
  `highTolerance` flag, adjacency merging, single-pass overlap merging,
  size filtering and post-hoc expansion.
* `Hist` — the drawing history (`history`/`redoHistory` state plus the
  `saveDrawingState`, `handleUndo`, `handleRedo` handlers).
* `Compositor` — the layered-canvas placement path
  (`handleFileChange` / `handleSelectGame`): clear the clicked area on the
  base canvas, crop-fill or letterbox the uploaded image into it, and
  persist the updated record.

Modelling conventions: JS numbers are modeled as exact rationals `ℚ`
(pixel coordinates of the flood-fill detector, which are loop counters,
as `ℤ`); the RGBA byte buffer `data` is modeled by per-pixel channel
functions `r g b : ℕ → ℕ` indexed by pixel number (`data[4*i+k]`);
unbounded loops are modeled with an explicit fuel that is proved
sufficient; `Math.sqrt` never needs to be taken because the source only
compares `sqrt (max 0 v) ≤ 15`, which is equivalent to `max 0 v ≤ 15 ^ 2`.
-/

/-- Decoded raster: dimensions plus the RGB channels of the canvas
`ImageData` buffer, `r i`/`g i`/`b i` standing for
`data[4*i]`/`data[4*i+1]`/`data[4*i+2]` of pixel number `i = y*width+x`. -/
structure Img where
  width : ℕ
  height : ℕ
  r : ℕ → ℕ
  g : ℕ → ℕ
  b : ℕ → ℕ

/-- The `BlankArea` record of `src/lib/image-analysis.ts` and the
`clickedArea` rectangles of the page component, with JS number
coordinates modeled as `ℚ`. -/
structure AreaQ where
  x : ℚ
  y : ℚ
  width : ℚ
  height : ℚ
  deriving DecidableEq

namespace Detector

/-- Luminance grayscale, `0.299*r + 0.587*g + 0.114*b`. -/
def getGrayscale (r g b : ℕ) : ℚ := 0.299 * r + 0.587 * g + 0.114 * b

/-- Grayscale of the pixel at `(x, y)`; `index = y*width + x`. -/
def grayAt (img : Img) (x y : ℤ) : ℚ :=
  let idx := (y * img.width + x).toNat
  getGrayscale (img.r idx) (img.g idx) (img.b idx)

def brightnessThreshold : ℚ := 235
def minPixelCount : ℕ := 100
def maxStdDev : ℚ := 15
def minAspect : ℚ := 0.2
def maxAspect : ℚ := 5.0

/-- Integer range `[a, b)` as a list, empty when `b ≤ a`. -/
def intRange (a b : ℤ) : List ℤ := (List.range (b - a).toNat).map (fun i => a + i)

/-- The square of the value returned by the source's `calculateStdDev`:
sum and sum of squares of the grayscale over the clipped box, then the
variance `sumSq/count - mean^2` clamped at `0` (the source takes
`Math.sqrt` of exactly this clamped value, and is only ever compared
against `maxStdDev`, so we keep the radicand). -/
def calculateStdDevSq (img : Img) (startX startY w h : ℤ) : ℚ :=
  let endX := min (startX + w) (img.width : ℤ)
  let endY := min (startY + h) (img.height : ℤ)
  let acc := (intRange startY endY).foldl (fun a yy =>
    (intRange startX endX).foldl (fun a2 xx =>
      (a2.1 + grayAt img xx yy, a2.2 + grayAt img xx yy * grayAt img xx yy)) a) ((0 : ℚ), (0 : ℚ))
  let count : ℚ := ((endY - startY).toNat * (endX - startX).toNat : ℕ)
  if count = 0 then 0
  else max 0 (acc.2 / count - (acc.1 / count) * (acc.1 / count))

/-- Detector-internal connected component (the `Component` interface). -/
structure Component where
  pixels : ℕ
  minX : ℤ
  minY : ℤ
  maxX : ℤ
  maxY : ℤ
  stdDevSq : ℚ
  deriving DecidableEq

/-- The `BlankArea` rectangles produced by the flood-fill detector; all
its coordinates are integer-valued, so they are modeled as `ℤ`. -/
structure BlankArea where
  x : ℤ
  y : ℤ
  width : ℤ
  height : ℤ
  deriving DecidableEq

/-- In-bounds check `nx >= 0 && nx < width && ny >= 0 && ny < height`. -/
abbrev inB (img : Img) (p : ℤ × ℤ) : Prop :=
  0 ≤ p.1 ∧ p.1 < (img.width : ℤ) ∧ 0 ≤ p.2 ∧ p.2 < (img.height : ℤ)

/-- The finite set of in-bounds pixel coordinates. -/
def gridF (img : Img) : Finset (ℤ × ℤ) :=
  Finset.Icc 0 ((img.width : ℤ) - 1) ×ˢ Finset.Icc 0 ((img.height : ℤ) - 1)

/-- State of one flood fill: the global `visited` set, the FIFO `queue`,
`currentPixels`, and the accumulated bounding box. -/
structure BfsState where
  visited : Finset (ℤ × ℤ)
  queue : List (ℤ × ℤ)
  pixels : ℕ
  minX : ℤ
  minY : ℤ
  maxX : ℤ
  maxY : ℤ

/-- Neighbor handling of the flood fill: an in-bounds, unvisited,
bright neighbor is marked visited and enqueued at the back. -/
def pushNbr (img : Img) (vq : Finset (ℤ × ℤ) × List (ℤ × ℤ)) (n : ℤ × ℤ) :
    Finset (ℤ × ℤ) × List (ℤ × ℤ) :=
  if inB img n ∧ n ∉ vq.1 ∧ brightnessThreshold ≤ grayAt img n.1 n.2 then
    (insert n vq.1, vq.2 ++ [n])
  else vq

/-- The flood-fill loop `while (queue.length > 0)`, with explicit fuel:
dequeue from the front, count the pixel, extend the bounding box, then
process the four 4-connectivity neighbors. -/
def bfsRun (img : Img) : ℕ → BfsState → Option BfsState
  | fuel, s =>
    match s.queue, fuel with
    | [], _ => some s
    | _ :: _, 0 => none
    | c :: rest, fuel2 + 1 =>
      let vq := [(c.1 + 1, c.2), (c.1 - 1, c.2), (c.1, c.2 + 1), (c.1, c.2 - 1)].foldl
        (pushNbr img) (s.visited, rest)
      bfsRun img fuel2
        ⟨vq.1, vq.2, s.pixels + 1, min s.minX c.1, min s.minY c.2, max s.maxX c.1, max s.maxY c.2⟩

/-- State of the scan over all pixels. -/
structure ScanState where
  visited : Finset (ℤ × ℤ)
  comps : List Component

/-- Initial flood-fill state for seed `(x, y)`: seed marked visited and
enqueued, zero pixels counted, bounding box at the seed. -/
def seedState (v : Finset (ℤ × ℤ)) (x y : ℤ) : BfsState :=
  ⟨insert (x, y) v, [(x, y)], 0, x, y, x, y⟩

/-- Component analysis after a fill completes: keep the component only
if `pixels ≥ minPixelCount`, the (clamped) variance within the bounding
box is at most `maxStdDev ^ 2`, and the aspect ratio is valid in at
least one orientation. -/
def analyzeComp (img : Img) (st : ScanState) (s : BfsState) : ScanState :=
  if minPixelCount ≤ s.pixels then
    let compWidth := s.maxX - s.minX + 1
    let compHeight := s.maxY - s.minY + 1
    let sd2 := calculateStdDevSq img s.minX s.minY compWidth compHeight
    let aspect : ℚ := (compWidth : ℚ) / (compHeight : ℚ)
    if sd2 ≤ maxStdDev ^ 2 ∧
        ((minAspect ≤ aspect ∧ aspect ≤ maxAspect) ∨
          (minAspect ≤ 1 / aspect ∧ 1 / aspect ≤ maxAspect)) then
      ⟨s.visited, st.comps ++ [⟨s.pixels, s.minX, s.minY, s.maxX, s.maxY, sd2⟩]⟩
    else ⟨s.visited, st.comps⟩
  else ⟨s.visited, st.comps⟩

/-- Body of the scan loop at pixel `(x, y)`: skip visited pixels, flood
fill from bright pixels (fuel `width*height`, one unit per examined
pixel), mark dark pixels visited without filling. -/
def scanPixel (img : Img) (st : ScanState) (x y : ℕ) : Option ScanState :=
  let p : ℤ × ℤ := ((x : ℤ), (y : ℤ))
  if p ∈ st.visited then some st
  else if brightnessThreshold ≤ grayAt img p.1 p.2 then
    match bfsRun img (img.width * img.height) (seedState st.visited p.1 p.2) with
    | none => none
    | some s => some (analyzeComp img st s)
  else some ⟨insert p st.visited, st.comps⟩

/-- Inner scan loop `for (x = 0; x < width; x++)`. -/
def scanRow (img : Img) (y : ℕ) (st : ScanState) : Option ScanState :=
  (List.range img.width).foldl (fun acc x => acc.bind fun s => scanPixel img s x y) (some st)

/-- Outer scan loop `for (y = 0; y < height; y++)`. -/
def scanAll (img : Img) : Option ScanState :=
  (List.range img.height).foldl (fun acc y => acc.bind fun s => scanRow img y s) (some ⟨∅, []⟩)

/-- Conversion of a component to its `BlankArea` bounding box. -/
def toArea (c : Component) : BlankArea :=
  ⟨c.minX, c.minY, c.maxX - c.minX + 1, c.maxY - c.minY + 1⟩

/-- The overlap test of the merge phase:
`a.x < b.x + b.width && a.x + a.width > b.x && a.y < b.y + b.height && a.y + a.height > b.y`. -/
abbrev overlaps (a b : BlankArea) : Prop :=
  a.x < b.x + b.width ∧ b.x < a.x + a.width ∧ a.y < b.y + b.height ∧ b.y < a.y + a.height

/-- Bounding box of the union of two rectangles (the merge step). -/
def unionRect (a b : BlankArea) : BlankArea :=
  ⟨min a.x b.x, min a.y b.y,
    max (a.x + a.width) (b.x + b.width) - min a.x b.x,
    max (a.y + a.height) (b.y + b.height) - min a.y b.y⟩

/-- Inner merge scan `for (j = i + 1; ...)`: merge `a` with the first
rectangle of the list it overlaps, removing that rectangle. -/
def mergeInto (a : BlankArea) : List BlankArea → Option (BlankArea × List BlankArea)
  | [] => none
  | b :: rest =>
    if overlaps a b then some (unionRect a b, rest)
    else (mergeInto a rest).map (fun pr => (pr.1, b :: pr.2))

/-- One pass of the merge loop `for (i = 0; ...)`: perform the first
merge found (in the source's `i < j` scan order), if any. -/
def mergePass : List BlankArea → Option (List BlankArea)
  | [] => none
  | a :: rest =>
    match mergeInto a rest with
    | some pr => some (pr.1 :: pr.2)
    | none => (mergePass rest).map (fun l => a :: l)

/-- The `while (merged)` loop, restarted after every merge, with fuel;
each merge shortens the list by one, so fuel `l.length` suffices. -/
def mergeLoopF : ℕ → List BlankArea → List BlankArea
  | 0, l => l
  | fuel + 1, l =>
    match mergePass l with
    | some l2 => mergeLoopF fuel l2
    | none => l

/-- Merge overlapping rectangles to a fixed point. -/
def mergeLoop (l : List BlankArea) : List BlankArea := mergeLoopF l.length l

/-- Whole detector on a decoded image (inside `img.onload`): scan all
pixels, convert surviving components to rectangles, merge overlaps.
`none` would mean some flood fill ran out of fuel; this never happens. -/
def detectOpt (img : Img) : Option (List BlankArea) :=
  (scanAll img).map (fun st => mergeLoop (st.comps.map toArea))

/-- `detectBlankAreas` of `src/app/edit/[id]/page.tsx`. -/
def detectBlankAreas (img : Img) : List BlankArea := (detectOpt img).getD []

/-- The §3 containment invariant for a returned rectangle. -/
abbrev rectInv (img : Img) (a : BlankArea) : Prop :=
  0 ≤ a.x ∧ 0 ≤ a.y ∧ a.x + a.width ≤ (img.width : ℤ) ∧
    a.y + a.height ≤ (img.height : ℤ) ∧ 0 < a.width ∧ 0 < a.height

/-- Pixel membership in a rectangle (used to relate the overlap test to
"overlap by at least one pixel"). -/
abbrev inRectZ (a : BlankArea) (p : ℤ × ℤ) : Prop :=
  a.x ≤ p.1 ∧ p.1 < a.x + a.width ∧ a.y ≤ p.2 ∧ p.2 < a.y + a.height

/-- Flood-fill invariant: queued pixels are in bounds and the bounding
box is a non-empty in-bounds box. -/
abbrev bfsInv (img : Img) (s : BfsState) : Prop :=
  (∀ p ∈ s.queue, inB img p) ∧ 0 ≤ s.minX ∧ s.minX ≤ s.maxX ∧ s.maxX < (img.width : ℤ) ∧
    0 ≤ s.minY ∧ s.minY ≤ s.maxY ∧ s.maxY < (img.height : ℤ)

/-- Component invariant: the bounding box is a non-empty in-bounds box. -/
abbrev compInv (img : Img) (c : Component) : Prop :=
  0 ≤ c.minX ∧ c.minX ≤ c.maxX ∧ c.maxX < (img.width : ℤ) ∧
    0 ≤ c.minY ∧ c.minY ≤ c.maxY ∧ c.maxY < (img.height : ℤ)

/-- Scan invariant: the visited set stays inside the grid and every
recorded component has an in-bounds bounding box. -/
abbrev scanInv (img : Img) (st : ScanState) : Prop :=
  st.visited ⊆ gridF img ∧ ∀ c ∈ st.comps, compInv img c

end Detector

/-- The detector invocation surface including decoding: `none` models a
blob that cannot be decoded. The source's `img.onerror` handler logs and
`resolve([])`s, so a decode failure produces the empty list. -/
def decodeAndDetect : Option Img → List Detector.BlankArea
  | none => []
  | some img => Detector.detectBlankAreas img

/-- A 1×1 all-black image: decodes successfully and contains no blank
areas. -/
def imgDark : Img := ⟨1, 1, fun _ => 0, fun _ => 0, fun _ => 0⟩

/-- A 10×10 all-white image: one 100-pixel bright component. -/
def white10 : Img := ⟨10, 10, fun _ => 255, fun _ => 255, fun _ => 255⟩

namespace Hist

/-- The drawing history of the edit page: `history` (undo stack, most
recent snapshot at the end, `history[history.length-1]` is the active
drawing layer) and `redoHistory` (next redo at the head). -/
structure HistState (α : Type) where
  undoStack : List α
  redoStack : List α
  deriving DecidableEq

variable {α : Type}

/-- Initial state: a single (empty/initial) snapshot. -/
def initState (init : α) : HistState α := ⟨[init], []⟩

/-- The active drawing layer: the top of the undo stack. -/
def active (st : HistState α) : Option α := st.undoStack.getLast?

/-- Commit of a snapshot (the history part of `saveDrawingState`):
`setHistory([...history, dataUrl]); setRedoHistory([])`. -/
def commit (s : α) (st : HistState α) : HistState α := ⟨st.undoStack ++ [s], []⟩

/-- `handleUndo`'s history part, guarded by `history.length > 1`: drop
the top of the undo stack and push it at the head of the redo stack. -/
def undo (st : HistState α) : HistState α :=
  if 1 < st.undoStack.length then
    match st.undoStack.getLast? with
    | some cur => ⟨st.undoStack.dropLast, cur :: st.redoStack⟩
    | none => st
  else st

/-- `handleRedo`'s history part, a no-op on an empty redo stack:
re-append the head of the redo stack to the undo stack. -/
def redo (st : HistState α) : HistState α :=
  match st.redoStack with
  | [] => st
  | s :: rest => ⟨st.undoStack ++ [s], rest⟩

/-- The closed set of history operations. -/
inductive Op (α : Type) where
  | commit (s : α)
  | undo
  | redo

/-- Apply one operation. -/
def applyOp (op : Op α) (st : HistState α) : HistState α :=
  match op with
  | .commit s => commit s st
  | .undo => undo st
  | .redo => redo st

/-- Apply a sequence of operations in order. -/
def applyOps (ops : List (Op α)) (st : HistState α) : HistState α :=
  ops.foldl (fun s op => applyOp op s) st

/-- Commit a list of snapshots in order. -/
def commitAll (snaps : List α) (st : HistState α) : HistState α :=
  snaps.foldl (fun s x => commit x s) st

/-- The history-relevant slice of the persisted form record: the stored
`drawingData` snapshot and its `timestamp`, next to the in-memory
history state. -/
structure DocState (α : Type) where
  hist : HistState α
  drawingData : Option α
  timestamp : ℤ
  deriving DecidableEq

/-- `saveDrawingState`: push the snapshot, clear the redo stack, and
synchronously `updateForm` the record with the snapshot and `Date.now()`. -/
def saveDrawingState (s : α) (now : ℤ) (doc : DocState α) : DocState α :=
  ⟨commit s doc.hist, some s, now⟩

/-- `handleUndo`: when `history.length > 1`, undo and `updateForm` with
`newHistory[newHistory.length-1]` and a fresh timestamp; otherwise
nothing happens. -/
def handleUndo (now : ℤ) (doc : DocState α) : DocState α :=
  if 1 < doc.hist.undoStack.length then
    ⟨undo doc.hist, doc.hist.undoStack.dropLast.getLast?, now⟩
  else doc

/-- `handleRedo`: when `redoHistory` is non-empty, redo and `updateForm`
with the restored snapshot and a fresh timestamp; otherwise nothing. -/
def handleRedo (now : ℤ) (doc : DocState α) : DocState α :=
  match doc.hist.redoStack with
  | [] => doc
  | s :: _ => ⟨redo doc.hist, some s, now⟩

end Hist

namespace Compositor

/-- An RGBA pixel value with JS numbers as `ℚ`. -/
abbrev Pix : Type := ℚ × ℚ × ℚ × ℚ

/-- Fully transparent pixel, the value `clearRect` leaves behind. -/
def blankPix : Pix := (0, 0, 0, 0)

/-- A canvas raster as an idealized pixel field over rational
coordinates. -/
abbrev Raster : Type := (ℚ × ℚ) → Pix

/-- Point membership in an `AreaQ` rectangle. -/
abbrev inRectQ (a : AreaQ) (p : ℚ × ℚ) : Prop :=
  a.x ≤ p.1 ∧ p.1 < a.x + a.width ∧ a.y ≤ p.2 ∧ p.2 < a.y + a.height

/-- `ctx.clearRect(a.x, a.y, a.width, a.height)`: pixels inside the
rectangle become transparent, others are untouched. -/
def clearRect (base : Raster) (a : AreaQ) : Raster :=
  fun p => if inRectQ a p then blankPix else base p

/-- A decoded source image for placement: dimensions plus its pixel
field. -/
structure SrcImg where
  width : ℚ
  height : ℚ
  px : ℚ × ℚ → Pix

/-- A source crop rectangle `(sx, sy, sWidth, sHeight)`. -/
structure CropR where
  sx : ℚ
  sy : ℚ
  sw : ℚ
  sh : ℚ
  deriving DecidableEq

/-- The crop-fill computation of `handleFileChange`/`handleSelectGame`
(`adaptiveUpload` on): if the source is wider than the target aspect,
keep the full height and crop the width to `height * targetAspect`,
centered; otherwise keep the full width and crop the height to
`width / targetAspect`, centered. -/
def cropFillRect (iw ih aw ah : ℚ) : CropR :=
  let tA := aw / ah
  if iw / ih > tA then ⟨(iw - ih * tA) / 2, 0, ih * tA, ih⟩
  else ⟨0, (ih - iw / tA) / 2, iw, iw / tA⟩

/-- The affine source-coordinate of destination point `p` under
`drawImage(img, c.sx, c.sy, c.sw, c.sh, d.x, d.y, d.width, d.height)`. -/
def mapPoint (c : CropR) (d : AreaQ) (p : ℚ × ℚ) : ℚ × ℚ :=
  (c.sx + (p.1 - d.x) * c.sw / d.width, c.sy + (p.2 - d.y) * c.sh / d.height)

/-- Nine-argument `ctx.drawImage`: paint the crop `c` of `src` onto the
destination rectangle `d`, leaving all other pixels untouched. -/
def drawImageQ (base : Raster) (src : SrcImg) (c : CropR) (d : AreaQ) : Raster :=
  fun p => if inRectQ d p then src.px (mapPoint c d p) else base p

/-- Identity crop covering the whole source (the four-argument
`drawImage` form draws the full source). -/
def fullCrop (src : SrcImg) : CropR := ⟨0, 0, src.width, src.height⟩

/-- Destination rectangle of the letterbox branch (`adaptiveUpload`
off): scale by `min(areaW/imgW, areaH/imgH)` and center inside the
area. -/
def letterRect (src : SrcImg) (a : AreaQ) : AreaQ :=
  let scale := min (a.width / src.width) (a.height / src.height)
  ⟨a.x + (a.width - src.width * scale) / 2, a.y + (a.height - src.height * scale) / 2,
    src.width * scale, src.height * scale⟩

/-- Source coordinate sampled at destination point `p` in crop-fill
mode. -/
def cropMapQ (src : SrcImg) (a : AreaQ) (p : ℚ × ℚ) : ℚ × ℚ :=
  mapPoint (cropFillRect src.width src.height a.width a.height) a p

/-- Source coordinate sampled at destination point `p` in letterbox
mode. -/
def letterMapQ (src : SrcImg) (a : AreaQ) (p : ℚ × ℚ) : ℚ × ℚ :=
  mapPoint (fullCrop src) (letterRect src a) p

/-- Crop-fill drawing step of the placement handlers. -/
def adaptiveDraw (src : SrcImg) (a : AreaQ) (base : Raster) : Raster :=
  drawImageQ base src (cropFillRect src.width src.height a.width a.height) a

/-- Letterbox drawing step of the placement handlers. -/
def letterboxDraw (src : SrcImg) (a : AreaQ) (base : Raster) : Raster :=
  drawImageQ base src (fullCrop src) (letterRect src a)

/-- The persisted `FormData` record of the edit page. -/
structure FormRec where
  id : ℕ
  imageData : Raster
  canvasData : Option Raster
  drawingData : Option Raster
  timestamp : ℤ
  size : ℤ
  blankAreas : List AreaQ

/-- In-memory editor state: base canvas, drawing canvas, history, and
the persisted record. -/
structure EditorState where
  base : Raster
  drawing : Raster
  hist : Hist.HistState Raster
  form : FormRec

/-- The `img.onload` body of `handleFileChange`/`handleSelectGame`:
clear the clicked area on the base canvas, draw the fitted image into
it (crop-fill when `adaptiveUpload`, letterbox otherwise), and persist
the updated base raster as `canvasData` with a fresh timestamp and
size (`sizeFn` stands for `new Blob([dataUrl]).size`). The drawing
canvas and the history are not touched. -/
def placeImage (sizeFn : Raster → ℤ) (now : ℤ) (src : SrcImg) (area : AreaQ)
    (adaptive : Bool) (st : EditorState) : EditorState :=
  let base1 := clearRect st.base area
  let base2 := if adaptive then adaptiveDraw src area base1 else letterboxDraw src area base1
  { st with
    base := base2,
    form := { st.form with canvasData := some base2, timestamp := now, size := sizeFn base2 } }

end Compositor

namespace CellDetect

/-- Cell size of the grid scan: `highTolerance ? 15 : 20`. -/
def cellSizeOf (hT : Bool) : ℕ := if hT then 15 else 20

/-- Brightness cutoff: `highTolerance ? 220 : 240`. -/
def thresholdOf (hT : Bool) : ℚ := if hT then 220 else 240

/-- Per-pixel brightness `(r + g + b) / 3` at pixel number `idx`. -/
def brightness (img : Img) (idx : ℕ) : ℚ := ((img.r idx : ℚ) + img.g idx + img.b idx) / 3

/-- Average brightness over the cell at `(x, y)` of size `cw × ch`. -/
def cellAvg (img : Img) (x y cw ch : ℕ) : ℚ :=
  let total := (List.range ch).foldl (fun a cy =>
    (List.range cw).foldl (fun a2 cx =>
      a2 + brightness img ((y + cy) * img.width + (x + cx))) a) (0 : ℚ)
  total / ((cw * ch : ℕ) : ℚ)

/-- First adjacency test of the scan: the cell's left edge is near the
area's right edge and the rows overlap within the threshold. -/
def adjacent1 (adjTh x y : ℚ) (a : AreaQ) : Prop :=
  |x - (a.x + a.width)| < adjTh ∧ a.y - adjTh ≤ y ∧ y ≤ a.y + a.height + adjTh

/-- Second adjacency test: the cell's top edge is near the area's
bottom edge and the columns overlap within the threshold. -/
def adjacent2 (adjTh x y : ℚ) (a : AreaQ) : Prop :=
  |y - (a.y + a.height)| < adjTh ∧ a.x - adjTh ≤ x ∧ x ≤ a.x + a.width + adjTh

instance (adjTh x y : ℚ) (a : AreaQ) : Decidable (adjacent1 adjTh x y a) := by
  unfold adjacent1; infer_instance

instance (adjTh x y : ℚ) (a : AreaQ) : Decidable (adjacent2 adjTh x y a) := by
  unfold adjacent2; infer_instance

/-- Merging a bright cell into an existing area: bounding box of the
union, written exactly as the source computes it. -/
def mergeCell (x y cw ch : ℚ) (a : AreaQ) : AreaQ :=
  ⟨min a.x x, min a.y y,
    max (a.x + a.width) (x + cw) - min a.x x,
    max (a.y + a.height) (y + ch) - min a.y y⟩

/-- Scan of the current area list for the first area the cell is
adjacent to (in either orientation); that area is replaced in place by
the merged bounding box. -/
def tryAdj (adjTh x y cw ch : ℚ) : List AreaQ → Option (List AreaQ)
  | [] => none
  | a :: rest =>
    if adjacent1 adjTh x y a ∨ adjacent2 adjTh x y a then
      some (mergeCell x y cw ch a :: rest)
    else (tryAdj adjTh x y cw ch rest).map (fun l => a :: l)

/-- The loop positions `0, c, 2c, ...` strictly below `n`
(`for (v = 0; v < n; v += c)`). -/
def stepRange (n c : ℕ) : List ℕ := (List.range ((n + c - 1) / c)).map (fun i => i * c)

/-- The `adjacencyThreshold`: `highTolerance ? cellSize * 2 : cellSize`. -/
def adjThOf (hT : Bool) : ℚ := if hT then ((2 * cellSizeOf hT : ℕ) : ℚ) else (cellSizeOf hT : ℚ)

/-- Scan-loop body for the cell at `(x, y)`: clip the cell to the
image, and when its average brightness exceeds the threshold, merge it
into the first adjacent area or append it as a new area. -/
def cellStep (img : Img) (hT : Bool) (st : List AreaQ) (x y : ℕ) : List AreaQ :=
  let c := cellSizeOf hT
  let cw := min c (img.width - x)
  let ch := min c (img.height - y)
  if thresholdOf hT < cellAvg img x y cw ch then
    match tryAdj (adjThOf hT) x y cw ch st with
    | some l => l
    | none => st ++ [⟨x, y, cw, ch⟩]
  else st

/-- The full grid scan (`y` outer, `x` inner, step `cellSize`). -/
def cellScan (img : Img) (hT : Bool) : List AreaQ :=
  (stepRange img.height (cellSizeOf hT)).foldl (fun st y =>
    (stepRange img.width (cellSizeOf hT)).foldl (fun st2 x => cellStep img hT st2 x y) st) []

/-- Overlap-or-near test of the second merge pass, with threshold `t`
(`highTolerance ? cellSize * 2 : 0`). -/
def overlapsT (t : ℚ) (a e : AreaQ) : Prop :=
  a.x - t < e.x + e.width ∧ e.x < a.x + a.width + t ∧
    a.y - t < e.y + e.height ∧ e.y < a.y + a.height + t

instance (t : ℚ) (a e : AreaQ) : Decidable (overlapsT t a e) := by
  unfold overlapsT; infer_instance

/-- Bounding box of the union of two areas (second merge pass). -/
def unionA (a e : AreaQ) : AreaQ :=
  ⟨min a.x e.x, min a.y e.y,
    max (a.x + a.width) (e.x + e.width) - min a.x e.x,
    max (a.y + a.height) (e.y + e.height) - min a.y e.y⟩

/-- Scan of the accumulated list for the first area overlapping `a`;
that area is replaced in place by the union. -/
def tryOv (t : ℚ) (a : AreaQ) : List AreaQ → Option (List AreaQ)
  | [] => none
  | e :: rest =>
    if overlapsT t a e then some (unionA a e :: rest)
    else (tryOv t a rest).map (fun l => e :: l)

/-- The single-pass overlap merge: each area is merged into the first
overlapping already-accumulated area, or appended as a copy. -/
def ovPass (t : ℚ) (l : List AreaQ) : List AreaQ :=
  l.foldl (fun acc a => match tryOv t a acc with | some acc2 => acc2 | none => acc ++ [a]) []

/-- The detector pipeline up to and including the size filter
(`width >= minSize && height >= minSize`), before the tolerance-only
expansion step. -/
def preAreas (img : Img) (hT : Bool) : List AreaQ :=
  let c := cellSizeOf hT
  let t : ℚ := if hT then ((2 * c : ℕ) : ℚ) else 0
  let minSize : ℚ := if hT then (c : ℚ) else ((2 * c : ℕ) : ℚ)
  (ovPass t (cellScan img hT)).filter (fun a => decide (minSize ≤ a.width ∧ minSize ≤ a.height))

/-- The post-hoc expansion applied under `highTolerance`: move the
origin up-left by `cellSize / 2` (clamped at 0), grow the size by
`cellSize` (clamped to the image); the new width is computed against
the already-updated `x`, as in the source. -/
def expand (W H c : ℕ) (a : AreaQ) : AreaQ :=
  let nx := max 0 (a.x - (c : ℚ) / 2)
  let ny := max 0 (a.y - (c : ℚ) / 2)
  ⟨nx, ny, min ((W : ℚ) - nx) (a.width + c), min ((H : ℚ) - ny) (a.height + c)⟩

/-- `detectBlankAreas` of `src/lib/image-analysis.ts` (inside
`img.onload`): grid scan with adjacency merging, overlap merge pass,
size filter, and, only under `highTolerance`, the expansion step. -/
def detectBlankAreas (img : Img) (hT : Bool) : List AreaQ :=
  if hT then (preAreas img hT).map (expand img.width img.height (cellSizeOf hT))
  else preAreas img hT

/-- Containment invariant for the cell detector's intermediate areas. -/
abbrev areaInv (img : Img) (a : AreaQ) : Prop :=
  0 ≤ a.x ∧ 0 ≤ a.y ∧ a.x + a.width ≤ (img.width : ℚ) ∧ a.y + a.height ≤ (img.height : ℚ)

end CellDetect

/-- A 15×15 all-white image: a single bright cell under tolerance. -/
def white15 : Img := ⟨15, 15, fun _ => 255, fun _ => 255, fun _ => 255⟩

namespace Detector

lemma mergeInto_length {a : BlankArea} :
    ∀ {l : List BlankArea} {pr : BlankArea × List BlankArea},
      mergeInto a l = some pr → pr.2.length + 1 = l.length := by
  intro l
  induction l with
  | nil => intro pr h; simp [mergeInto] at h
  | cons b rest ih =>
    intro pr h
    rw [mergeInto] at h
    split at h
    · rw [Option.some.injEq] at h
      rw [← h]
      simp
    · rw [Option.map_eq_some'] at h
      obtain ⟨pr2, hrec, heq⟩ := h
      have := ih hrec
      rw [← heq]
      simp only [List.length_cons]
      omega

lemma mergePass_length :
    ∀ {l l2 : List BlankArea}, mergePass l = some l2 → l2.length + 1 = l.length := by
  intro l
  induction l with
  | nil => intro l2 h; simp [mergePass] at h
  | cons a rest ih =>
    intro l2 h
    rw [mergePass] at h
    split at h
    · next pr hpr =>
      rw [Option.some.injEq] at h
      have h2 : (pr.1 :: pr.2).length = pr.2.length + 1 := by simp
      have := mergeInto_length hpr
      rw [← h]
      simp only [List.length_cons]
      omega
    · next hnone =>
      rw [Option.map_eq_some'] at h
      obtain ⟨l3, hrec, heq⟩ := h
      have := ih hrec
      rw [← heq]
      simp only [List.length_cons]
      omega

lemma mergeInto_none_iff {a : BlankArea} :
    ∀ {l : List BlankArea}, mergeInto a l = none ↔ ∀ b ∈ l, ¬ overlaps a b := by
  intro l
  induction l with
  | nil => simp [mergeInto]
  | cons b rest ih =>
    rw [mergeInto]
    constructor
    · intro h
      split at h
      · exact absurd h (by simp)
      · next hb =>
        rw [Option.map_eq_none'] at h
        intro c hc
        rcases List.mem_cons.mp hc with hc1 | hc2
        · exact hc1 ▸ hb
        · exact (ih.mp h) c hc2
    · intro h
      rw [if_neg (h b (List.mem_cons_self b rest))]
      rw [Option.map_eq_none']
      exact ih.mpr (fun c hc => h c (List.mem_cons_of_mem b hc))

lemma mergePass_none_iff :
    ∀ {l : List BlankArea}, mergePass l = none ↔ l.Pairwise (fun a b => ¬ overlaps a b) := by
  intro l
  induction l with
  | nil => simp [mergePass]
  | cons a rest ih =>
    rw [mergePass, List.pairwise_cons]
    constructor
    · intro h
      split at h
      · exact absurd h (by simp)
      · next hnone =>
        rw [Option.map_eq_none'] at h
        exact ⟨mergeInto_none_iff.mp hnone, ih.mp h⟩
    · intro ⟨h1, h2⟩
      rw [mergeInto_none_iff.mpr h1, Option.map_eq_none']
      exact ih.mpr h2

lemma mergeLoopF_fix :
    ∀ (fuel : ℕ) (l : List BlankArea), l.length ≤ fuel → mergePass (mergeLoopF fuel l) = none := by
  intro fuel
  induction fuel with
  | zero =>
    intro l hl
    rw [List.length_eq_zero.mp (Nat.le_zero.mp hl)]
    simp [mergeLoopF, mergePass]
  | succ n ih =>
    intro l hl
    rw [mergeLoopF]
    split
    · next l2 h2 =>
      exact ih l2 (by have := mergePass_length h2; omega)
    · next h2 => exact h2

/-- The final rectangle list is pairwise non-overlapping. -/
lemma mergeLoop_pairwise (l : List BlankArea) :
    (mergeLoop l).Pairwise (fun a b => ¬ overlaps a b) :=
  mergePass_none_iff.mp (mergeLoopF_fix l.length l le_rfl)

lemma unionRect_inv {img : Img} {a b : BlankArea} (ha : rectInv img a) (hb : rectInv img b) :
    rectInv img (unionRect a b) := by
  obtain ⟨ha1, ha2, ha3, ha4, ha5, ha6⟩ := ha
  obtain ⟨hb1, hb2, hb3, hb4, hb5, hb6⟩ := hb
  unfold unionRect
  refine ⟨?_, ?_, ?_, ?_, ?_, ?_⟩ <;> simp <;> omega

lemma mergeInto_inv {img : Img} {a : BlankArea} :
    ∀ {l : List BlankArea} {pr : BlankArea × List BlankArea},
      mergeInto a l = some pr → rectInv img a → (∀ x ∈ l, rectInv img x) →
      rectInv img pr.1 ∧ ∀ x ∈ pr.2, rectInv img x := by
  intro l
  induction l with
  | nil => intro pr h _ _; simp [mergeInto] at h
  | cons b rest ih =>
    intro pr h ha hl
    rw [mergeInto] at h
    split at h
    · rw [Option.some.injEq] at h
      rw [← h]
      exact ⟨unionRect_inv ha (hl b (List.mem_cons_self b rest)),
        fun x hx => hl x (List.mem_cons_of_mem b hx)⟩
    · rw [Option.map_eq_some'] at h
      obtain ⟨pr2, hrec, heq⟩ := h
      have hres := ih hrec ha (fun x hx => hl x (List.mem_cons_of_mem b hx))
      rw [← heq]
      refine ⟨hres.1, fun x hx => ?_⟩
      rcases List.mem_cons.mp hx with h1 | h2
      · exact h1 ▸ hl b (List.mem_cons_self b rest)
      · exact hres.2 x h2

lemma mergePass_inv {img : Img} :
    ∀ {l l2 : List BlankArea}, mergePass l = some l2 → (∀ x ∈ l, rectInv img x) →
      ∀ x ∈ l2, rectInv img x := by
  intro l
  induction l with
  | nil => intro l2 h _; simp [mergePass] at h
  | cons a rest ih =>
    intro l2 h hl
    rw [mergePass] at h
    split at h
    · next pr hpr =>
      rw [Option.some.injEq] at h
      have hres := mergeInto_inv hpr (hl a (List.mem_cons_self a rest))
        (fun x hx => hl x (List.mem_cons_of_mem a hx))
      rw [← h]
      intro x hx
      rcases List.mem_cons.mp hx with h1 | h2
      · exact h1 ▸ hres.1
      · exact hres.2 x h2
    · next hnone =>
      rw [Option.map_eq_some'] at h
      obtain ⟨l3, hrec, heq⟩ := h
      rw [← heq]
      intro x hx
      rcases List.mem_cons.mp hx with h1 | h2
      · exact h1 ▸ hl a (List.mem_cons_self a rest)
      · exact ih hrec (fun z hz => hl z (List.mem_cons_of_mem a hz)) x h2

lemma mergeLoopF_inv {img : Img} :
    ∀ (fuel : ℕ) {l : List BlankArea}, (∀ x ∈ l, rectInv img x) →
      ∀ x ∈ mergeLoopF fuel l, rectInv img x := by
  intro fuel
  induction fuel with
  | zero => intro l hl; simpa [mergeLoopF] using hl
  | succ n ih =>
    intro l hl
    rw [mergeLoopF]
    split
    · next l2 h2 => exact ih (mergePass_inv h2 hl)
    · exact hl

lemma mergeLoop_inv {img : Img} {l : List BlankArea} (hl : ∀ x ∈ l, rectInv img x) :
    ∀ x ∈ mergeLoop l, rectInv img x :=
  mergeLoopF_inv l.length hl

/-- Merging exactly two overlapping rectangles gives the single union
bounding box. -/
lemma mergeLoop_pair {a b : BlankArea} (h : overlaps a b) :
    mergeLoop [a, b] = [unionRect a b] := by
  have h1 : mergeInto a [b] = some (unionRect a b, []) := by
    rw [mergeInto, if_pos h]
  have h2 : mergePass [a, b] = some [unionRect a b] := by
    rw [mergePass, h1]
  have h3 : mergePass [unionRect a b] = none := by
    simp [mergePass, mergeInto]
  have e1 : mergeLoopF (1 + 1) [a, b] = mergeLoopF 1 [unionRect a b] := by
    rw [mergeLoopF, h2]
  have e2 : mergeLoopF 1 [unionRect a b] = [unionRect a b] := by
    rw [mergeLoopF, h3]
  exact e1.trans e2

/-- The overlap test means the two rectangles share at least one pixel
(for positive dimensions). -/
lemma overlaps_shared_pixel {a b : BlankArea} (h : overlaps a b)
    (haw : 0 < a.width) (hah : 0 < a.height) (hbw : 0 < b.width) (hbh : 0 < b.height) :
    ∃ p : ℤ × ℤ, inRectZ a p ∧ inRectZ b p := by
  obtain ⟨h1, h2, h3, h4⟩ := h
  exact ⟨(max a.x b.x, max a.y b.y), by constructor <;> [skip; constructor] <;>
    [skip; skip; constructor] <;> simp <;> omega, by
    constructor <;> [skip; constructor] <;> [skip; skip; constructor] <;> simp <;> omega⟩

end Detector

namespace Detector

lemma mem_gridF {img : Img} {p : ℤ × ℤ} : p ∈ gridF img ↔ inB img p := by
  simp only [gridF, Finset.mem_product, Finset.mem_Icc, inB]
  omega

lemma gridF_card (img : Img) : (gridF img).card = img.width * img.height := by
  rw [gridF, Finset.card_product, Int.card_Icc, Int.card_Icc]
  have h1 : ((img.width : ℤ) - 1 + 1 - 0).toNat = img.width := by omega
  have h2 : ((img.height : ℤ) - 1 + 1 - 0).toNat = img.height := by omega
  rw [h1, h2]

lemma pushNbr_fold_card (img : Img) :
    ∀ (ns : List (ℤ × ℤ)) (vq : Finset (ℤ × ℤ) × List (ℤ × ℤ)),
      (ns.foldl (pushNbr img) vq).2.length + vq.1.card
        = vq.2.length + (ns.foldl (pushNbr img) vq).1.card := by
  intro ns
  induction ns with
  | nil => intro vq; simp
  | cons n rest ih =>
    intro vq
    rw [List.foldl_cons]
    have step : (pushNbr img vq n).2.length + vq.1.card
        = vq.2.length + (pushNbr img vq n).1.card := by
      unfold pushNbr
      split
      · next hcond =>
        simp [Finset.card_insert_of_not_mem hcond.2.1]
        omega
      · simp
    have := ih (pushNbr img vq n)
    omega

lemma pushNbr_fold_subset (img : Img) :
    ∀ (ns : List (ℤ × ℤ)) (vq : Finset (ℤ × ℤ) × List (ℤ × ℤ)),
      vq.1 ⊆ (ns.foldl (pushNbr img) vq).1 := by
  intro ns
  induction ns with
  | nil => intro vq; simp
  | cons n rest ih =>
    intro vq
    rw [List.foldl_cons]
    refine subset_trans ?_ (ih (pushNbr img vq n))
    unfold pushNbr
    split
    · exact Finset.subset_insert n vq.1
    · exact subset_rfl

lemma pushNbr_fold_grid (img : Img) :
    ∀ (ns : List (ℤ × ℤ)) (vq : Finset (ℤ × ℤ) × List (ℤ × ℤ)),
      vq.1 ⊆ gridF img → (ns.foldl (pushNbr img) vq).1 ⊆ gridF img := by
  intro ns
  induction ns with
  | nil => intro vq h; simpa using h
  | cons n rest ih =>
    intro vq h
    rw [List.foldl_cons]
    refine ih (pushNbr img vq n) ?_
    unfold pushNbr
    split
    · next hcond => exact Finset.insert_subset (mem_gridF.mpr hcond.1) h
    · exact h

lemma pushNbr_fold_queue (img : Img) :
    ∀ (ns : List (ℤ × ℤ)) (vq : Finset (ℤ × ℤ) × List (ℤ × ℤ)),
      (∀ p ∈ vq.2, inB img p) → ∀ p ∈ (ns.foldl (pushNbr img) vq).2, inB img p := by
  intro ns
  induction ns with
  | nil => intro vq h; simpa using h
  | cons n rest ih =>
    intro vq h
    rw [List.foldl_cons]
    refine ih (pushNbr img vq n) ?_
    unfold pushNbr
    split
    · next hcond =>
      intro p hp
      rcases List.mem_append.mp hp with h1 | h2
      · exact h p h1
      · rw [List.mem_singleton.mp h2]; exact hcond.1
    · exact h

lemma bfsRun_total (img : Img) :
    ∀ (fuel : ℕ) (s : BfsState), s.visited ⊆ gridF img →
      s.queue.length + (img.width * img.height - s.visited.card) ≤ fuel →
      ∃ t, bfsRun img fuel s = some t ∧ t.visited ⊆ gridF img := by
  intro fuel
  induction fuel with
  | zero =>
    rintro ⟨v, q, px, mnx, mny, mxx, mxy⟩ hsub hm
    simp only at hsub hm
    have hq : q = [] := List.length_eq_zero.mp (by omega)
    subst hq
    exact ⟨⟨v, [], px, mnx, mny, mxx, mxy⟩, rfl, hsub⟩
  | succ fuel ih =>
    rintro ⟨v, q, px, mnx, mny, mxx, mxy⟩ hsub hm
    simp only at hsub hm
    cases q with
    | nil => exact ⟨⟨v, [], px, mnx, mny, mxx, mxy⟩, rfl, hsub⟩
    | cons c rest =>
      have hcard := pushNbr_fold_card img
        [(c.1 + 1, c.2), (c.1 - 1, c.2), (c.1, c.2 + 1), (c.1, c.2 - 1)] (v, rest)
      have hsub2 := pushNbr_fold_grid img
        [(c.1 + 1, c.2), (c.1 - 1, c.2), (c.1, c.2 + 1), (c.1, c.2 - 1)] (v, rest) hsub
      have hsz : ([(c.1 + 1, c.2), (c.1 - 1, c.2), (c.1, c.2 + 1), (c.1, c.2 - 1)].foldl
          (pushNbr img) (v, rest)).1.card ≤ img.width * img.height := by
        have := Finset.card_le_card hsub2
        rwa [gridF_card] at this
      have hmono : v.card ≤ ([(c.1 + 1, c.2), (c.1 - 1, c.2), (c.1, c.2 + 1),
          (c.1, c.2 - 1)].foldl (pushNbr img) (v, rest)).1.card :=
        Finset.card_le_card (pushNbr_fold_subset img
          [(c.1 + 1, c.2), (c.1 - 1, c.2), (c.1, c.2 + 1), (c.1, c.2 - 1)] (v, rest))
      obtain ⟨t, ht, htsub⟩ := ih
        ⟨([(c.1 + 1, c.2), (c.1 - 1, c.2), (c.1, c.2 + 1), (c.1, c.2 - 1)].foldl
            (pushNbr img) (v, rest)).1,
          ([(c.1 + 1, c.2), (c.1 - 1, c.2), (c.1, c.2 + 1), (c.1, c.2 - 1)].foldl
            (pushNbr img) (v, rest)).2,
          px + 1, min mnx c.1, min mny c.2, max mxx c.1, max mxy c.2⟩
        hsub2 (by simp only at hcard ⊢; simp only [List.length_cons] at hm; omega)
      refine ⟨t, ?_, htsub⟩
      exact ht

end Detector

namespace Detector

lemma bfsRun_bbox (img : Img) :
    ∀ (fuel : ℕ) (s t : BfsState), bfsRun img fuel s = some t → bfsInv img s → bfsInv img t := by
  intro fuel
  induction fuel with
  | zero =>
    rintro ⟨v, q, px, mnx, mny, mxx, mxy⟩ t h hinv
    cases q with
    | nil =>
      rw [show bfsRun img 0 ⟨v, [], px, mnx, mny, mxx, mxy⟩
            = some ⟨v, [], px, mnx, mny, mxx, mxy⟩ from rfl, Option.some.injEq] at h
      exact h ▸ hinv
    | cons c rest =>
      rw [show bfsRun img 0 ⟨v, c :: rest, px, mnx, mny, mxx, mxy⟩ = none from rfl] at h
      exact absurd h (by simp)
  | succ fuel ih =>
    rintro ⟨v, q, px, mnx, mny, mxx, mxy⟩ t h hinv
    cases q with
    | nil =>
      rw [show bfsRun img (fuel + 1) ⟨v, [], px, mnx, mny, mxx, mxy⟩
            = some ⟨v, [], px, mnx, mny, mxx, mxy⟩ from rfl, Option.some.injEq] at h
      exact h ▸ hinv
    | cons c rest =>
      obtain ⟨hq, hinv2⟩ := hinv
      have hc : inB img c := hq c (List.mem_cons_self c rest)
      have h2 : bfsRun img fuel
          ⟨([(c.1 + 1, c.2), (c.1 - 1, c.2), (c.1, c.2 + 1), (c.1, c.2 - 1)].foldl
              (pushNbr img) (v, rest)).1,
            ([(c.1 + 1, c.2), (c.1 - 1, c.2), (c.1, c.2 + 1), (c.1, c.2 - 1)].foldl
              (pushNbr img) (v, rest)).2,
            px + 1, min mnx c.1, min mny c.2, max mxx c.1, max mxy c.2⟩ = some t := h
      refine ih _ t h2 ⟨?_, ?_⟩
      · exact pushNbr_fold_queue img
          [(c.1 + 1, c.2), (c.1 - 1, c.2), (c.1, c.2 + 1), (c.1, c.2 - 1)] (v, rest)
          (fun p hp => hq p (List.mem_cons_of_mem c hp))
      · obtain ⟨hc1, hc2, hc3, hc4⟩ := hc
        simp only at hinv2 ⊢
        omega

lemma scanPixel_total (img : Img) (st : ScanState) (x y : ℕ)
    (hx : x < img.width) (hy : y < img.height) (hinv : scanInv img st) :
    ∃ st2, scanPixel img st x y = some st2 ∧ scanInv img st2 := by
  by_cases hp : (((x : ℤ), (y : ℤ)) : ℤ × ℤ) ∈ st.visited
  · exact ⟨st, by simp [scanPixel, hp], hinv⟩
  · have hpin : inB img ((x : ℤ), (y : ℤ)) :=
      ⟨Int.natCast_nonneg x, by show ((x : ℤ)) < (img.width : ℤ); exact_mod_cast hx,
        Int.natCast_nonneg y, by show ((y : ℤ)) < (img.height : ℤ); exact_mod_cast hy⟩
    by_cases hb : brightnessThreshold ≤ grayAt img (x : ℤ) (y : ℤ)
    · have hseedsub : insert (((x : ℤ), (y : ℤ)) : ℤ × ℤ) st.visited ⊆ gridF img :=
        Finset.insert_subset (mem_gridF.mpr hpin) hinv.1
      have hcard : 1 ≤ (insert (((x : ℤ), (y : ℤ)) : ℤ × ℤ) st.visited).card :=
        Finset.card_pos.mpr ⟨((x : ℤ), (y : ℤ)), Finset.mem_insert_self _ _⟩
      have hsz : (insert (((x : ℤ), (y : ℤ)) : ℤ × ℤ) st.visited).card
          ≤ img.width * img.height := by
        have := Finset.card_le_card hseedsub
        rwa [gridF_card] at this
      have hwh : 1 ≤ img.width * img.height := Nat.mul_pos (by omega) (by omega)
      obtain ⟨t, hbfs, htsub⟩ := bfsRun_total img (img.width * img.height)
        (seedState st.visited (x : ℤ) (y : ℤ)) hseedsub
        (by simp only [seedState, List.length_cons, List.length_nil]; omega)
      have hbbox : bfsInv img t := by
        refine bfsRun_bbox img _ _ t hbfs ⟨?_, ?_⟩
        · intro p hp2
          rw [show (seedState st.visited (x : ℤ) (y : ℤ)).queue
                = [((x : ℤ), (y : ℤ))] from rfl] at hp2
          rw [List.mem_singleton.mp hp2]
          exact hpin
        · obtain ⟨h1, h2, h3, h4⟩ := hpin
          simp only [seedState]
          omega
      refine ⟨analyzeComp img st t, by simp [scanPixel, hp, hb, hbfs], ?_, ?_⟩
      · simp only [analyzeComp]
        split
        · split
          · exact htsub
          · exact htsub
        · exact htsub
      · simp only [analyzeComp]
        split
        · split
          · intro c hc
            rcases List.mem_append.mp hc with h1 | h2
            · exact hinv.2 c h1
            · rw [List.mem_singleton.mp h2]
              obtain ⟨hb1, hb2, hb3, hb4, hb5, hb6, hb7⟩ := hbbox
              exact ⟨hb2, hb3, hb4, hb5, hb6, hb7⟩
          · exact hinv.2
        · exact hinv.2
    · refine ⟨⟨insert ((x : ℤ), (y : ℤ)) st.visited, st.comps⟩,
        by simp [scanPixel, hp, hb], ?_, hinv.2⟩
      exact Finset.insert_subset (mem_gridF.mpr hpin) hinv.1

lemma scanRow_total (img : Img) (y : ℕ) (hy : y < img.height) :
    ∀ (l : List ℕ) (st : ScanState), (∀ x ∈ l, x < img.width) → scanInv img st →
      ∃ st2, l.foldl (fun acc x => acc.bind fun s => scanPixel img s x y) (some st) = some st2 ∧
        scanInv img st2 := by
  intro l
  induction l with
  | nil => intro st _ hinv; exact ⟨st, rfl, hinv⟩
  | cons x rest ih =>
    intro st hl hinv
    obtain ⟨st1, h1, hinv1⟩ := scanPixel_total img st x y (hl x (List.mem_cons_self x rest)) hy hinv
    obtain ⟨st2, h2, hinv2⟩ := ih st1 (fun z hz => hl z (List.mem_cons_of_mem x hz)) hinv1
    refine ⟨st2, ?_, hinv2⟩
    rw [List.foldl_cons]
    have hstep : ((some st).bind fun s => scanPixel img s x y) = some st1 := h1
    rw [hstep]
    exact h2

lemma scanAll_total (img : Img) :
    ∃ stf, scanAll img = some stf ∧ scanInv img stf := by
  have main : ∀ (l : List ℕ) (st : ScanState), (∀ y ∈ l, y < img.height) → scanInv img st →
      ∃ st2, l.foldl (fun acc y => acc.bind fun s => scanRow img y s) (some st) = some st2 ∧
        scanInv img st2 := by
    intro l
    induction l with
    | nil => intro st _ hinv; exact ⟨st, rfl, hinv⟩
    | cons y rest ih =>
      intro st hl hinv
      obtain ⟨st1, h1, hinv1⟩ := scanRow_total img y (hl y (List.mem_cons_self y rest))
        (List.range img.width) st (fun z hz => List.mem_range.mp hz) hinv
      obtain ⟨st2, h2, hinv2⟩ := ih st1 (fun z hz => hl z (List.mem_cons_of_mem y hz)) hinv1
      refine ⟨st2, ?_, hinv2⟩
      rw [List.foldl_cons]
      have hrow : (some st).bind (fun s => scanRow img y s) = some st1 := h1
      rw [hrow]
      exact h2
  obtain ⟨stf, h, hinv⟩ := main (List.range img.height) ⟨∅, []⟩
    (fun z hz => List.mem_range.mp hz) ⟨Finset.empty_subset _, by simp⟩
  exact ⟨stf, h, hinv⟩

/-- The detector never fails: the scan (and every flood fill inside it,
with its per-pixel fuel) completes. -/
lemma detect_total (img : Img) : detectOpt img = some (detectBlankAreas img) := by
  obtain ⟨stf, h, _⟩ := scanAll_total img
  rw [detectBlankAreas, detectOpt, h]
  rfl

lemma toArea_inv {img : Img} {c : Component} (hc : compInv img c) : rectInv img (toArea c) := by
  obtain ⟨h1, h2, h3, h4, h5, h6⟩ := hc
  unfold toArea
  refine ⟨?_, ?_, ?_, ?_, ?_, ?_⟩ <;> simp <;> omega

/-- Every returned rectangle satisfies the containment invariant. -/
lemma detect_inv (img : Img) : ∀ a ∈ detectBlankAreas img, rectInv img a := by
  obtain ⟨stf, h, hinv⟩ := scanAll_total img
  have hrepr : detectBlankAreas img = mergeLoop (stf.comps.map toArea) := by
    rw [detectBlankAreas, detectOpt, h]
    rfl
  rw [hrepr]
  refine mergeLoop_inv ?_
  intro a ha
  obtain ⟨c, hc, hca⟩ := List.mem_map.mp ha
  exact hca ▸ toArea_inv (hinv.2 c hc)

/-- The returned rectangles are pairwise non-overlapping. -/
lemma detect_pairwise (img : Img) :
    (detectBlankAreas img).Pairwise (fun a b => ¬ overlaps a b) := by
  obtain ⟨stf, h, _⟩ := scanAll_total img
  have hrepr : detectBlankAreas img = mergeLoop (stf.comps.map toArea) := by
    rw [detectBlankAreas, detectOpt, h]
    rfl
  rw [hrepr]
  exact mergeLoop_pairwise _

end Detector

namespace Hist

variable {α : Type}

lemma commitAll_undoStack (snaps : List α) :
    ∀ st : HistState α, (commitAll snaps st).undoStack = st.undoStack ++ snaps := by
  induction snaps with
  | nil => intro st; simp [commitAll]
  | cons x rest ih =>
    intro st
    show (commitAll rest (commit x st)).undoStack = _
    rw [ih (commit x st)]
    simp [commit]

lemma commitAll_redo_nil (snaps : List α) :
    ∀ st : HistState α, st.redoStack = [] → (commitAll snaps st).redoStack = [] := by
  induction snaps with
  | nil => intro st h; exact h
  | cons x rest ih =>
    intro st _
    exact ih (commit x st) rfl

lemma undo_concat (u : List α) (a : α) (r : List α) (hu : u ≠ []) :
    undo ⟨u ++ [a], r⟩ = ⟨u, a :: r⟩ := by
  have hlen : 1 < ((⟨u ++ [a], r⟩ : HistState α)).undoStack.length := by
    simp only [List.length_append, List.length_singleton]
    have := List.length_pos.mpr hu
    omega
  unfold undo
  rw [if_pos hlen]
  show (match (u ++ [a]).getLast? with
    | some cur => (⟨(u ++ [a]).dropLast, cur :: r⟩ : HistState α)
    | none => ⟨u ++ [a], r⟩) = ⟨u, a :: r⟩
  rw [List.getLast?_concat, List.dropLast_concat]

lemma undo_bottom (st : HistState α) (h : st.undoStack.length ≤ 1) : undo st = st := by
  unfold undo
  rw [if_neg (by omega)]

lemma undo_iter (l : List α) :
    ∀ (u r : List α), u ≠ [] →
      undo^[l.length] (⟨u ++ l, r⟩ : HistState α) = ⟨u, l ++ r⟩ := by
  induction l using List.reverseRecOn with
  | nil => intro u r _; simp
  | append_singleton l a ih =>
    intro u r hu
    rw [List.length_append, List.length_singleton, Function.iterate_succ_apply]
    rw [show u ++ (l ++ [a]) = (u ++ l) ++ [a] from (List.append_assoc u l [a]).symm]
    rw [undo_concat (u ++ l) a r (by simp [hu])]
    rw [ih u (a :: r) hu]
    simp

end Hist

namespace Hist

variable {α : Type}

lemma applyOp_nonempty (op : Op α) (st : HistState α) (h : st.undoStack ≠ []) :
    (applyOp op st).undoStack ≠ [] := by
  cases op with
  | commit s => simp [applyOp, commit]
  | undo =>
    show (undo st).undoStack ≠ []
    unfold undo
    split
    · next hlen =>
      split
      · next cur hcur =>
        show st.undoStack.dropLast ≠ []
        rw [← List.length_pos, List.length_dropLast]
        omega
      · exact h
    · exact h
  | redo =>
    show (redo st).undoStack ≠ []
    unfold redo
    split
    · exact h
    · simp

lemma applyOps_nonempty (init : α) (ops : List (Op α)) :
    (applyOps ops (initState init)).undoStack ≠ [] := by
  have main : ∀ (l : List (Op α)) (st : HistState α), st.undoStack ≠ [] →
      (applyOps l st).undoStack ≠ [] := by
    intro l
    induction l with
    | nil => intro st h; exact h
    | cons op rest ih =>
      intro st h
      exact ih (applyOp op st) (applyOp_nonempty op st h)
  exact main ops (initState init) (by simp [initState])

end Hist

namespace Compositor

lemma cropFill_spec (iw ih aw ah : ℚ) (hiw : 0 < iw) (hih : 0 < ih)
    (haw : 0 < aw) (hah : 0 < ah) :
    (cropFillRect iw ih aw ah).sw / (cropFillRect iw ih aw ah).sh = aw / ah ∧
    2 * (cropFillRect iw ih aw ah).sx = iw - (cropFillRect iw ih aw ah).sw ∧
    2 * (cropFillRect iw ih aw ah).sy = ih - (cropFillRect iw ih aw ah).sh ∧
    (cropFillRect iw ih aw ah).sh = min ih (iw * ah / aw) ∧
    (cropFillRect iw ih aw ah).sw = min iw (ih * aw / ah) ∧
    0 ≤ (cropFillRect iw ih aw ah).sx ∧
    (cropFillRect iw ih aw ah).sx + (cropFillRect iw ih aw ah).sw ≤ iw ∧
    0 ≤ (cropFillRect iw ih aw ah).sy ∧
    (cropFillRect iw ih aw ah).sy + (cropFillRect iw ih aw ah).sh ≤ ih := by
  unfold cropFillRect
  by_cases h : iw / ih > aw / ah
  · rw [if_pos h]
    simp only
    have key : aw * ih < iw * ah := (div_lt_div_iff₀ hah hih).mp h
    have hswle : ih * (aw / ah) ≤ iw := by
      rw [mul_div_assoc ih aw ah |>.symm, div_le_iff₀ hah]
      nlinarith
    have hswnn : 0 ≤ ih * (aw / ah) := by positivity
    have hmin4 : ih ≤ iw * ah / aw := by
      rw [le_div_iff₀ haw]
      nlinarith
    have hmin5 : ih * aw / ah ≤ iw := by
      rw [div_le_iff₀ hah]
      nlinarith
    refine ⟨?_, by ring, by ring, ?_, ?_, ?_, ?_, by simp, by simp⟩
    · field_simp
      ring
    · rw [min_eq_left hmin4]
    · rw [min_eq_right hmin5, mul_div_assoc]
    · linarith [div_nonneg (by linarith : (0:ℚ) ≤ iw - ih * (aw / ah)) (by norm_num : (0:ℚ) ≤ 2)]
    · have h2 : (iw - ih * (aw / ah)) / 2 + ih * (aw / ah) = (iw + ih * (aw / ah)) / 2 := by ring
      rw [h2, div_le_iff₀ (by norm_num : (0:ℚ) < 2)]
      nlinarith
  · rw [if_neg h]
    simp only
    push_neg at h
    have key : iw * ah ≤ aw * ih := by
      have := (div_le_div_iff₀ hih hah).mp h
      nlinarith
    have hta0 : 0 < aw / ah := by positivity
    have htah : iw / (aw / ah) = iw * ah / aw := div_div_eq_mul_div iw aw ah
    have hshle : iw / (aw / ah) ≤ ih := by
      rw [htah, div_le_iff₀ haw]
      nlinarith
    have hshnn : 0 ≤ iw / (aw / ah) := by positivity
    have hmin4 : iw * ah / aw ≤ ih := by
      rw [div_le_iff₀ haw]
      nlinarith
    have hmin5 : iw ≤ ih * aw / ah := by
      rw [le_div_iff₀ hah]
      nlinarith
    refine ⟨?_, by ring, by ring, ?_, ?_, by simp, by simp, ?_, ?_⟩
    · rw [htah]
      field_simp
      ring
    · rw [min_eq_right hmin4, htah]
    · rw [min_eq_left hmin5]
    · linarith [div_nonneg (by linarith : (0:ℚ) ≤ ih - iw / (aw / ah)) (by norm_num : (0:ℚ) ≤ 2)]
    · have h2 : (ih - iw / (aw / ah)) / 2 + iw / (aw / ah) = (ih + iw / (aw / ah)) / 2 := by ring
      rw [h2, div_le_iff₀ (by norm_num : (0:ℚ) < 2)]
      nlinarith

end Compositor

namespace CellDetect

lemma stepRange_lt {n c : ℕ} {x : ℕ} (hx : x ∈ stepRange n c) : x < n := by
  obtain ⟨i, hi, rfl⟩ := List.mem_map.mp hx
  rw [List.mem_range] at hi
  rcases Nat.eq_zero_or_pos c with hc | hc
  · subst hc; simp at hi
  · have h2 : (i + 1) * c ≤ (n + c - 1) / c * c := Nat.mul_le_mul_right c hi
    have h3 := Nat.div_mul_le_self (n + c - 1) c
    have h5 : i * c + c = (i + 1) * c := by ring
    omega

lemma unionA_inv {img : Img} {a e : AreaQ} (ha : areaInv img a) (he : areaInv img e) :
    areaInv img (unionA a e) := by
  obtain ⟨ha1, ha2, ha3, ha4⟩ := ha
  obtain ⟨he1, he2, he3, he4⟩ := he
  simp only [unionA, areaInv]
  refine ⟨le_min ha1 he1, le_min ha2 he2,
    by linarith [max_le ha3 he3], by linarith [max_le ha4 he4]⟩

lemma mergeCell_eq (x y cw ch : ℚ) (a : AreaQ) :
    mergeCell x y cw ch a = unionA a ⟨x, y, cw, ch⟩ := rfl

lemma tryAdj_inv {img : Img} {adjTh x y cw ch : ℚ}
    (hcell : areaInv img ⟨x, y, cw, ch⟩) :
    ∀ {l l2 : List AreaQ}, tryAdj adjTh x y cw ch l = some l2 →
      (∀ a ∈ l, areaInv img a) → ∀ a ∈ l2, areaInv img a := by
  intro l
  induction l with
  | nil => intro l2 h _; simp [tryAdj] at h
  | cons b rest ih =>
    intro l2 h hl
    rw [tryAdj] at h
    split at h
    · rw [Option.some.injEq] at h
      rw [← h]
      intro a ha
      rcases List.mem_cons.mp ha with h1 | h2
      · rw [h1, mergeCell_eq]
        exact unionA_inv (hl b (List.mem_cons_self b rest)) hcell
      · exact hl a (List.mem_cons_of_mem b h2)
    · rw [Option.map_eq_some'] at h
      obtain ⟨l3, hrec, heq⟩ := h
      rw [← heq]
      intro a ha
      rcases List.mem_cons.mp ha with h1 | h2
      · exact h1 ▸ hl b (List.mem_cons_self b rest)
      · exact ih hrec (fun z hz => hl z (List.mem_cons_of_mem b hz)) a h2

lemma cellStep_inv {img : Img} {hT : Bool} {st : List AreaQ} {x y : ℕ}
    (hx : x < img.width) (hy : y < img.height)
    (hst : ∀ a ∈ st, areaInv img a) : ∀ a ∈ cellStep img hT st x y, areaInv img a := by
  have hcell : areaInv img ⟨(x : ℚ), (y : ℚ),
      ((min (cellSizeOf hT) (img.width - x) : ℕ) : ℚ),
      ((min (cellSizeOf hT) (img.height - y) : ℕ) : ℚ)⟩ := by
    refine ⟨by positivity, by positivity, ?_, ?_⟩
    · show (x : ℚ) + ((min (cellSizeOf hT) (img.width - x) : ℕ) : ℚ) ≤ (img.width : ℚ)
      exact_mod_cast (show x + min (cellSizeOf hT) (img.width - x) ≤ img.width by omega)
    · show (y : ℚ) + ((min (cellSizeOf hT) (img.height - y) : ℕ) : ℚ) ≤ (img.height : ℚ)
      exact_mod_cast (show y + min (cellSizeOf hT) (img.height - y) ≤ img.height by omega)
  intro a ha
  simp only [cellStep] at ha
  split at ha
  · split at ha
    · next l htry => exact tryAdj_inv hcell htry hst a ha
    · next htry =>
      rcases List.mem_append.mp ha with h1 | h2
      · exact hst a h1
      · rw [List.mem_singleton.mp h2]
        exact hcell
  · exact hst a ha

lemma cellScan_inv (img : Img) (hT : Bool) : ∀ a ∈ cellScan img hT, areaInv img a := by
  have hrow : ∀ (l : List ℕ) (st : List AreaQ) (y : ℕ), y < img.height →
      (∀ x ∈ l, x < img.width) → (∀ a ∈ st, areaInv img a) →
      ∀ a ∈ l.foldl (fun st2 x => cellStep img hT st2 x y) st, areaInv img a := by
    intro l
    induction l with
    | nil => intro st y _ _ hst; exact hst
    | cons x rest ih =>
      intro st y hy hl hst
      rw [List.foldl_cons]
      exact ih (cellStep img hT st x y) y hy
        (fun z hz => hl z (List.mem_cons_of_mem x hz))
        (cellStep_inv (hl x (List.mem_cons_self x rest)) hy hst)
  have hcol : ∀ (l : List ℕ) (st : List AreaQ), (∀ y ∈ l, y < img.height) →
      (∀ a ∈ st, areaInv img a) →
      ∀ a ∈ l.foldl (fun st y =>
        (stepRange img.width (cellSizeOf hT)).foldl
          (fun st2 x => cellStep img hT st2 x y) st) st, areaInv img a := by
    intro l
    induction l with
    | nil => intro st _ hst; exact hst
    | cons y rest ih =>
      intro st hl hst
      rw [List.foldl_cons]
      exact ih _ (fun z hz => hl z (List.mem_cons_of_mem y hz))
        (hrow (stepRange img.width (cellSizeOf hT)) st y (hl y (List.mem_cons_self y rest))
          (fun x hx => stepRange_lt hx) hst)
  exact hcol (stepRange img.height (cellSizeOf hT)) []
    (fun y hy => stepRange_lt hy) (by simp)

lemma tryOv_inv {img : Img} {t : ℚ} {a : AreaQ} (ha : areaInv img a) :
    ∀ {l l2 : List AreaQ}, tryOv t a l = some l2 →
      (∀ e ∈ l, areaInv img e) → ∀ e ∈ l2, areaInv img e := by
  intro l
  induction l with
  | nil => intro l2 h _; simp [tryOv] at h
  | cons b rest ih =>
    intro l2 h hl
    rw [tryOv] at h
    split at h
    · rw [Option.some.injEq] at h
      rw [← h]
      intro e he
      rcases List.mem_cons.mp he with h1 | h2
      · rw [h1]
        exact unionA_inv ha (hl b (List.mem_cons_self b rest))
      · exact hl e (List.mem_cons_of_mem b h2)
    · rw [Option.map_eq_some'] at h
      obtain ⟨l3, hrec, heq⟩ := h
      rw [← heq]
      intro e he
      rcases List.mem_cons.mp he with h1 | h2
      · exact h1 ▸ hl b (List.mem_cons_self b rest)
      · exact ih hrec (fun z hz => hl z (List.mem_cons_of_mem b hz)) e h2

lemma ovPass_inv {img : Img} {t : ℚ} :
    ∀ {l : List AreaQ} {acc : List AreaQ}, (∀ a ∈ l, areaInv img a) →
      (∀ a ∈ acc, areaInv img a) →
      ∀ a ∈ l.foldl (fun acc2 a => match tryOv t a acc2 with
        | some acc3 => acc3 | none => acc2 ++ [a]) acc, areaInv img a := by
  intro l
  induction l with
  | nil => intro acc _ hacc; exact hacc
  | cons b rest ih =>
    intro acc hl hacc
    rw [List.foldl_cons]
    refine ih (fun z hz => hl z (List.mem_cons_of_mem b hz)) ?_
    cases htry : tryOv t b acc with
    | some acc2 =>
      simp only [htry]
      exact tryOv_inv (hl b (List.mem_cons_self b rest)) htry hacc
    | none =>
      simp only [htry]
      intro a ha
      rcases List.mem_append.mp ha with h1 | h2
      · exact hacc a h1
      · rw [List.mem_singleton.mp h2]
        exact hl b (List.mem_cons_self b rest)

lemma preAreas_inv (img : Img) (hT : Bool) : ∀ a ∈ preAreas img hT, areaInv img a := by
  intro a ha
  rw [preAreas] at ha
  have := List.mem_filter.mp ha
  exact ovPass_inv (cellScan_inv img hT) (by simp) a this.1

lemma expand_spec {img : Img} {a : AreaQ} (ha : areaInv img a) (c : ℕ) :
    (expand img.width img.height c a).x ≤ a.x ∧
    (expand img.width img.height c a).y ≤ a.y ∧
    a.x + a.width ≤ (expand img.width img.height c a).x + (expand img.width img.height c a).width ∧
    a.y + a.height ≤ (expand img.width img.height c a).y + (expand img.width img.height c a).height ∧
    0 ≤ (expand img.width img.height c a).x ∧
    0 ≤ (expand img.width img.height c a).y ∧
    (expand img.width img.height c a).x + (expand img.width img.height c a).width
      ≤ (img.width : ℚ) ∧
    (expand img.width img.height c a).y + (expand img.width img.height c a).height
      ≤ (img.height : ℚ) := by
  obtain ⟨ha1, ha2, ha3, ha4⟩ := ha
  have hc : (0 : ℚ) ≤ (c : ℚ) := by positivity
  simp only [expand]
  refine ⟨max_le (by linarith) (by linarith), max_le (by linarith) (by linarith),
    ?_, ?_, le_max_left _ _, le_max_left _ _, ?_, ?_⟩
  · rcases min_cases ((img.width : ℚ) - max 0 (a.x - (c : ℚ) / 2)) (a.width + (c : ℚ)) with
      ⟨hm, _⟩ | ⟨hm, _⟩ <;> rw [hm]
    · linarith
    · have := le_max_right (0 : ℚ) (a.x - (c : ℚ) / 2)
      linarith
  · rcases min_cases ((img.height : ℚ) - max 0 (a.y - (c : ℚ) / 2)) (a.height + (c : ℚ)) with
      ⟨hm, _⟩ | ⟨hm, _⟩ <;> rw [hm]
    · linarith
    · have := le_max_right (0 : ℚ) (a.y - (c : ℚ) / 2)
      linarith
  · linarith [min_le_left ((img.width : ℚ) - max 0 (a.x - (c : ℚ) / 2)) (a.width + (c : ℚ))]
  · linarith [min_le_left ((img.height : ℚ) - max 0 (a.y - (c : ℚ) / 2)) (a.height + (c : ℚ))]

end CellDetect

/-- Claim C3: starting from one initial entry, N commits followed by N
undos return the active layer to the initial snapshot; after commit S1,
commit S2, undo the active layer is S1 and a redo makes it S2 again; and
a commit clears the redo stack, so a redo right after any commit is a
no-op (until a new undo repopulates the redo stack). -/
theorem claim_C3 (α : Type) (init s1 s2 : α) (snaps : List α) :
    Hist.active (Hist.undo^[snaps.length] (Hist.commitAll snaps (Hist.initState init)))
      = some init ∧
    Hist.active (Hist.undo (Hist.commit s2 (Hist.commit s1 (Hist.initState init))))
      = some s1 ∧
    Hist.active (Hist.redo (Hist.undo (Hist.commit s2 (Hist.commit s1 (Hist.initState init)))))
      = some s2 ∧
    (∀ (st : Hist.HistState α) (s : α), Hist.redo (Hist.commit s st) = Hist.commit s st) := by
  refine ⟨?_, ?_, ?_, fun st s => rfl⟩
  · have h1 := Hist.commitAll_undoStack snaps (Hist.initState init)
    have h2 := Hist.commitAll_redo_nil snaps (Hist.initState init) rfl
    have heq : Hist.commitAll snaps (Hist.initState init)
        = (⟨[init] ++ snaps, []⟩ : Hist.HistState α) := by
      cases hc : Hist.commitAll snaps (Hist.initState init) with
      | mk u r =>
        rw [hc] at h1 h2
        simp only [Hist.initState] at h1 h2
        simp [h1, h2]
    rw [heq, Hist.undo_iter snaps [init] [] (by simp)]
    simp [Hist.active]
  · have hu : Hist.undo (Hist.commit s2 (Hist.commit s1 (Hist.initState init)))
        = (⟨[init, s1], [s2]⟩ : Hist.HistState α) :=
      Hist.undo_concat [init, s1] s2 [] (by simp)
    rw [hu]
    rfl
  · have hu : Hist.undo (Hist.commit s2 (Hist.commit s1 (Hist.initState init)))
        = (⟨[init, s1], [s2]⟩ : Hist.HistState α) :=
      Hist.undo_concat [init, s1] s2 [] (by simp)
    rw [hu]
    rfl

/-- Claim C4: from the initial state the undo stack is never empty under
any sequence of operations; commit appends the snapshot and clears the
redo stack; undo is a no-op at the bottom and otherwise moves the top of
the undo stack onto the redo stack, the new top becoming the active
layer; redo is a no-op on an empty redo stack and otherwise moves the
head of the redo stack back onto the undo stack. -/
theorem claim_C4 (α : Type) (init s a b : α) (ops : List (Hist.Op α))
    (u u2 rs rs2 : List α) (hu : u ≠ []) :
    (Hist.applyOps ops (Hist.initState init)).undoStack ≠ [] ∧
    Hist.commit s (⟨u2, rs2⟩ : Hist.HistState α) = ⟨u2 ++ [s], []⟩ ∧
    Hist.undo (⟨u ++ [a], rs⟩ : Hist.HistState α) = ⟨u, a :: rs⟩ ∧
    Hist.active (Hist.undo (⟨u ++ [a], rs⟩ : Hist.HistState α)) = u.getLast? ∧
    Hist.undo (⟨[a], rs⟩ : Hist.HistState α) = ⟨[a], rs⟩ ∧
    Hist.redo (⟨u2, b :: rs2⟩ : Hist.HistState α) = ⟨u2 ++ [b], rs2⟩ ∧
    Hist.redo (⟨u2, []⟩ : Hist.HistState α) = ⟨u2, []⟩ := by
  refine ⟨Hist.applyOps_nonempty init ops, rfl, Hist.undo_concat u a rs hu, ?_,
    Hist.undo_bottom _ (by simp), rfl, rfl⟩
  rw [Hist.undo_concat u a rs hu]
  rfl

/-- Claim C4 witness at concrete inputs. -/
theorem claim_C4_witness :
    ([0] : List ℕ) ≠ [] ∧
    ((Hist.applyOps [Hist.Op.commit 5, Hist.Op.undo, Hist.Op.redo]
        (Hist.initState 0)).undoStack ≠ [] ∧
      Hist.commit 7 (⟨[1, 2], [3]⟩ : Hist.HistState ℕ) = ⟨[1, 2] ++ [7], []⟩ ∧
      Hist.undo (⟨[0] ++ [4], [3]⟩ : Hist.HistState ℕ) = ⟨[0], 4 :: [3]⟩ ∧
      Hist.active (Hist.undo (⟨[0] ++ [4], [3]⟩ : Hist.HistState ℕ)) = [0].getLast? ∧
      Hist.undo (⟨[4], [3]⟩ : Hist.HistState ℕ) = ⟨[4], [3]⟩ ∧
      Hist.redo (⟨[1, 2], 6 :: [3]⟩ : Hist.HistState ℕ) = ⟨[1, 2] ++ [6], [3]⟩ ∧
      Hist.redo (⟨[1, 2], []⟩ : Hist.HistState ℕ) = ⟨[1, 2], []⟩) := by
  have hu : ([0] : List ℕ) ≠ [] := by decide
  exact ⟨hu, claim_C4 ℕ 0 7 4 6 [Hist.Op.commit 5, Hist.Op.undo, Hist.Op.redo]
    [0] [1, 2] [3] [3] hu⟩

/-- Claim C10: every performed history transition (commit of a stroke or
text snapshot, a non-bottom undo, a non-empty redo) synchronously writes
the newly active drawing-layer snapshot to the persisted record with a
refreshed timestamp, so the stored `drawingData` equals the active layer;
guarded-out undo/redo leave the record untouched; and the handlers'
history components agree with the pure history operations. -/
theorem claim_C10 (α : Type) (s a : α) (u rs : List α) (doc : Hist.DocState α)
    (d0 : Option α) (t0 now : ℤ) (hu : u ≠ []) :
    (Hist.saveDrawingState s now doc).drawingData
      = Hist.active (Hist.saveDrawingState s now doc).hist ∧
    (Hist.saveDrawingState s now doc).timestamp = now ∧
    (Hist.saveDrawingState s now doc).hist = Hist.commit s doc.hist ∧
    (Hist.handleUndo now (⟨⟨u ++ [a], rs⟩, d0, t0⟩ : Hist.DocState α)).drawingData
      = Hist.active (Hist.handleUndo now (⟨⟨u ++ [a], rs⟩, d0, t0⟩ : Hist.DocState α)).hist ∧
    (Hist.handleUndo now (⟨⟨u ++ [a], rs⟩, d0, t0⟩ : Hist.DocState α)).timestamp = now ∧
    (Hist.handleUndo now doc).hist = Hist.undo doc.hist ∧
    (Hist.handleRedo now (⟨⟨u, a :: rs⟩, d0, t0⟩ : Hist.DocState α)).drawingData
      = Hist.active (Hist.handleRedo now (⟨⟨u, a :: rs⟩, d0, t0⟩ : Hist.DocState α)).hist ∧
    (Hist.handleRedo now (⟨⟨u, a :: rs⟩, d0, t0⟩ : Hist.DocState α)).timestamp = now ∧
    (Hist.handleRedo now doc).hist = Hist.redo doc.hist ∧
    Hist.handleUndo now (⟨⟨[a], rs⟩, d0, t0⟩ : Hist.DocState α) = ⟨⟨[a], rs⟩, d0, t0⟩ ∧
    Hist.handleRedo now (⟨⟨u, []⟩, d0, t0⟩ : Hist.DocState α) = ⟨⟨u, []⟩, d0, t0⟩ := by
  have hlen : 1 < ((⟨u ++ [a], rs⟩ : Hist.HistState α)).undoStack.length := by
    simp only [List.length_append, List.length_singleton]
    have := List.length_pos.mpr hu
    omega
  have hundo : Hist.handleUndo now (⟨⟨u ++ [a], rs⟩, d0, t0⟩ : Hist.DocState α)
      = ⟨Hist.undo ⟨u ++ [a], rs⟩, (u ++ [a]).dropLast.getLast?, now⟩ := by
    unfold Hist.handleUndo
    rw [if_pos hlen]
  refine ⟨?_, rfl, rfl, ?_, ?_, ?_, ?_, rfl, ?_, ?_, rfl⟩
  · show some s = Hist.active (Hist.commit s doc.hist)
    simp [Hist.active, Hist.commit]
  · rw [hundo, Hist.undo_concat u a rs hu]
    simp [Hist.active, List.dropLast_concat]
  · rw [hundo]
  · unfold Hist.handleUndo
    split
    · rfl
    · next hlen2 =>
      rw [Hist.undo_bottom doc.hist (by omega)]
  · show some a = Hist.active (Hist.redo ⟨u, a :: rs⟩)
    simp [Hist.active, Hist.redo]
  · unfold Hist.handleRedo
    split
    · next hrs =>
      rw [show Hist.redo doc.hist = doc.hist by unfold Hist.redo; rw [hrs]]
    · rfl
  · unfold Hist.handleUndo
    rw [if_neg (by simp)]

/-- Claim C10 witness at concrete inputs. -/
theorem claim_C10_witness :
    ([0] : List ℕ) ≠ [] ∧
    ((Hist.saveDrawingState 9 77 (⟨⟨[0], []⟩, none, 5⟩ : Hist.DocState ℕ)).drawingData
        = Hist.active (Hist.saveDrawingState 9 77 (⟨⟨[0], []⟩, none, 5⟩ : Hist.DocState ℕ)).hist ∧
      (Hist.saveDrawingState 9 77 (⟨⟨[0], []⟩, none, 5⟩ : Hist.DocState ℕ)).timestamp = 77 ∧
      (Hist.saveDrawingState 9 77 (⟨⟨[0], []⟩, none, 5⟩ : Hist.DocState ℕ)).hist
        = Hist.commit 9 (⟨⟨[0], []⟩, none, 5⟩ : Hist.DocState ℕ).hist ∧
      (Hist.handleUndo 77 (⟨⟨[0] ++ [4], [3]⟩, none, 5⟩ : Hist.DocState ℕ)).drawingData
        = Hist.active (Hist.handleUndo 77 (⟨⟨[0] ++ [4], [3]⟩, none, 5⟩ : Hist.DocState ℕ)).hist ∧
      (Hist.handleUndo 77 (⟨⟨[0] ++ [4], [3]⟩, none, 5⟩ : Hist.DocState ℕ)).timestamp = 77 ∧
      (Hist.handleUndo 77 (⟨⟨[0], []⟩, none, 5⟩ : Hist.DocState ℕ)).hist
        = Hist.undo (⟨⟨[0], []⟩, none, 5⟩ : Hist.DocState ℕ).hist ∧
      (Hist.handleRedo 77 (⟨⟨[0], 4 :: [3]⟩, none, 5⟩ : Hist.DocState ℕ)).drawingData
        = Hist.active (Hist.handleRedo 77 (⟨⟨[0], 4 :: [3]⟩, none, 5⟩ : Hist.DocState ℕ)).hist ∧
      (Hist.handleRedo 77 (⟨⟨[0], 4 :: [3]⟩, none, 5⟩ : Hist.DocState ℕ)).timestamp = 77 ∧
      (Hist.handleRedo 77 (⟨⟨[0], []⟩, none, 5⟩ : Hist.DocState ℕ)).hist
        = Hist.redo (⟨⟨[0], []⟩, none, 5⟩ : Hist.DocState ℕ).hist ∧
      Hist.handleUndo 77 (⟨⟨[4], [3]⟩, none, 5⟩ : Hist.DocState ℕ) = ⟨⟨[4], [3]⟩, none, 5⟩ ∧
      Hist.handleRedo 77 (⟨⟨[0], []⟩, none, 5⟩ : Hist.DocState ℕ) = ⟨⟨[0], []⟩, none, 5⟩) := by
  have hu : ([0] : List ℕ) ≠ [] := by decide
  exact ⟨hu, claim_C10 ℕ 9 4 [0] [3] (⟨⟨[0], []⟩, none, 5⟩ : Hist.DocState ℕ) none 5 77 hu⟩

/-- Claim C1: for every input raster the rectangles returned after the
detector's merge phase are pairwise non-overlapping (the merge is
restarted after every union until a fixed point); two accepted
rectangles that overlap by at least one pixel (the strict overlap test,
which for positive dimensions is equivalent to sharing a pixel) are
replaced by exactly one rectangle, the bounding box of their union. -/
theorem claim_C1 (img : Img) (a b : Detector.BlankArea) (h : Detector.overlaps a b)
    (haw : 0 < a.width) (hah : 0 < a.height) (hbw : 0 < b.width) (hbh : 0 < b.height) :
    (Detector.detectBlankAreas img).Pairwise (fun r1 r2 => ¬ Detector.overlaps r1 r2) ∧
    Detector.mergeLoop [a, b] = [Detector.unionRect a b] ∧
    ∃ p : ℤ × ℤ, Detector.inRectZ a p ∧ Detector.inRectZ b p :=
  ⟨Detector.detect_pairwise img, Detector.mergeLoop_pair h,
    Detector.overlaps_shared_pixel h haw hah hbw hbh⟩

/-- Claim C1 witness at concrete inputs. -/
theorem claim_C1_witness :
    Detector.overlaps ⟨0, 0, 2, 2⟩ ⟨1, 1, 3, 3⟩ ∧
    ((Detector.detectBlankAreas imgDark).Pairwise (fun r1 r2 => ¬ Detector.overlaps r1 r2) ∧
      Detector.mergeLoop [⟨0, 0, 2, 2⟩, ⟨1, 1, 3, 3⟩]
        = [Detector.unionRect ⟨0, 0, 2, 2⟩ ⟨1, 1, 3, 3⟩] ∧
      ∃ p : ℤ × ℤ, Detector.inRectZ ⟨0, 0, 2, 2⟩ p ∧ Detector.inRectZ ⟨1, 1, 3, 3⟩ p) := by
  have h : Detector.overlaps (⟨0, 0, 2, 2⟩ : Detector.BlankArea) ⟨1, 1, 3, 3⟩ := by decide
  exact ⟨h, claim_C1 imgDark ⟨0, 0, 2, 2⟩ ⟨1, 1, 3, 3⟩ h
    (by decide) (by decide) (by decide) (by decide)⟩

/-- Claim C2: every rectangle returned by the flood-fill detector is an
integer rectangle inside the image: nonnegative origin, positive width
and height, and right/bottom edges within the image dimensions. -/
theorem claim_C2 (img : Img) (a : Detector.BlankArea)
    (h : a ∈ Detector.detectBlankAreas img) :
    0 ≤ a.x ∧ 0 ≤ a.y ∧ a.x + a.width ≤ (img.width : ℤ) ∧
      a.y + a.height ≤ (img.height : ℤ) ∧ 0 < a.width ∧ 0 < a.height :=
  Detector.detect_inv img a h

set_option maxRecDepth 400000 in
set_option maxHeartbeats 16000000 in
/-- Claim C2 witness: the 10×10 all-white image yields the full-image
rectangle, which satisfies the invariant. -/
theorem claim_C2_witness :
    (⟨0, 0, 10, 10⟩ : Detector.BlankArea) ∈ Detector.detectBlankAreas white10 ∧
    (0 ≤ (⟨0, 0, 10, 10⟩ : Detector.BlankArea).x ∧
      0 ≤ (⟨0, 0, 10, 10⟩ : Detector.BlankArea).y ∧
      (⟨0, 0, 10, 10⟩ : Detector.BlankArea).x + (⟨0, 0, 10, 10⟩ : Detector.BlankArea).width
        ≤ (white10.width : ℤ) ∧
      (⟨0, 0, 10, 10⟩ : Detector.BlankArea).y + (⟨0, 0, 10, 10⟩ : Detector.BlankArea).height
        ≤ (white10.height : ℤ) ∧
      0 < (⟨0, 0, 10, 10⟩ : Detector.BlankArea).width ∧
      0 < (⟨0, 0, 10, 10⟩ : Detector.BlankArea).height) := by
  have h : (⟨0, 0, 10, 10⟩ : Detector.BlankArea) ∈ Detector.detectBlankAreas white10 := by
    with_unfolding_all decide
  exact ⟨h, claim_C2 white10 ⟨0, 0, 10, 10⟩ h⟩

/-- Claim C9: detection always completes — the scan, with each flood
fill given one fuel unit per pixel of the image, never exhausts its
fuel, because a pixel is enqueued only when first marked visited; and a
pixel below the brightness threshold is marked visited without any
filling or component being produced. -/
theorem claim_C9 (img : Img) (st : Detector.ScanState) (x y : ℕ)
    (hv : (((x : ℤ), (y : ℤ)) : ℤ × ℤ) ∉ st.visited)
    (hg : Detector.grayAt img (x : ℤ) (y : ℤ) < Detector.brightnessThreshold) :
    Detector.detectOpt img = some (Detector.detectBlankAreas img) ∧
    Detector.scanPixel img st x y
      = some ⟨insert ((x : ℤ), (y : ℤ)) st.visited, st.comps⟩ := by
  refine ⟨Detector.detect_total img, ?_⟩
  simp [Detector.scanPixel, hv, not_le.mpr hg]

set_option maxRecDepth 20000 in
/-- Claim C9 witness at concrete inputs. -/
theorem claim_C9_witness :
    ((((0 : ℕ) : ℤ), ((0 : ℕ) : ℤ)) : ℤ × ℤ) ∉ (⟨∅, []⟩ : Detector.ScanState).visited ∧
    Detector.grayAt imgDark ((0 : ℕ) : ℤ) ((0 : ℕ) : ℤ) < Detector.brightnessThreshold ∧
    (Detector.detectOpt imgDark = some (Detector.detectBlankAreas imgDark) ∧
      Detector.scanPixel imgDark ⟨∅, []⟩ 0 0
        = some ⟨insert (((0 : ℕ) : ℤ), ((0 : ℕ) : ℤ)) (⟨∅, []⟩ : Detector.ScanState).visited,
            (⟨∅, []⟩ : Detector.ScanState).comps⟩) := by
  have hv : ((((0 : ℕ) : ℤ), ((0 : ℕ) : ℤ)) : ℤ × ℤ)
      ∉ (⟨∅, []⟩ : Detector.ScanState).visited := by
    simp
  have hg : Detector.grayAt imgDark ((0 : ℕ) : ℤ) ((0 : ℕ) : ℤ)
      < Detector.brightnessThreshold := by
    with_unfolding_all decide
  exact ⟨hv, hg, claim_C9 imgDark ⟨∅, []⟩ 0 0 hv hg⟩

namespace Compositor

lemma letterRect_subset {src : SrcImg} {a : AreaQ} (hiw : 0 < src.width)
    (hih : 0 < src.height) (haw : 0 < a.width) (hah : 0 < a.height)
    {p : ℚ × ℚ} (hp : inRectQ (letterRect src a) p) : inRectQ a p := by
  have hs0 : 0 ≤ min (a.width / src.width) (a.height / src.height) :=
    le_min (by positivity) (by positivity)
  have hnw : src.width * min (a.width / src.width) (a.height / src.height) ≤ a.width := by
    have h1 : src.width * min (a.width / src.width) (a.height / src.height)
        ≤ src.width * (a.width / src.width) :=
      mul_le_mul_of_nonneg_left (min_le_left _ _) hiw.le
    have h2 : src.width * (a.width / src.width) = a.width := by
      field_simp
    linarith
  have hnh : src.height * min (a.width / src.width) (a.height / src.height) ≤ a.height := by
    have h1 : src.height * min (a.width / src.width) (a.height / src.height)
        ≤ src.height * (a.height / src.height) :=
      mul_le_mul_of_nonneg_left (min_le_right _ _) hih.le
    have h2 : src.height * (a.height / src.height) = a.height := by
      field_simp
    linarith
  have hnw0 : 0 ≤ src.width * min (a.width / src.width) (a.height / src.height) := by
    positivity
  have hnh0 : 0 ≤ src.height * min (a.width / src.width) (a.height / src.height) := by
    positivity
  obtain ⟨hp1, hp2, hp3, hp4⟩ := hp
  simp only [letterRect] at hp1 hp2 hp3 hp4
  exact ⟨by linarith, by linarith, by linarith, by linarith⟩

end Compositor

/-- Claim C5: for positive source and destination dimensions, the
crop-fill computation produces a source crop whose aspect ratio equals
the destination's, centered in the source, using the full extent of the
limiting source dimension (its height is the smaller of the full source
height and the width-derived height, symmetrically for the width), lying
inside the source; and in crop-fill mode every point of the destination
rectangle is painted from that crop. -/
theorem claim_C5 (src : Compositor.SrcImg) (area : AreaQ) (base : Compositor.Raster)
    (q : ℚ × ℚ) (hiw : 0 < src.width) (hih : 0 < src.height)
    (haw : 0 < area.width) (hah : 0 < area.height) (hq : Compositor.inRectQ area q) :
    ((Compositor.cropFillRect src.width src.height area.width area.height).sw
        / (Compositor.cropFillRect src.width src.height area.width area.height).sh
        = area.width / area.height ∧
      2 * (Compositor.cropFillRect src.width src.height area.width area.height).sx
        = src.width - (Compositor.cropFillRect src.width src.height area.width area.height).sw ∧
      2 * (Compositor.cropFillRect src.width src.height area.width area.height).sy
        = src.height - (Compositor.cropFillRect src.width src.height area.width area.height).sh ∧
      (Compositor.cropFillRect src.width src.height area.width area.height).sh
        = min src.height (src.width * area.height / area.width) ∧
      (Compositor.cropFillRect src.width src.height area.width area.height).sw
        = min src.width (src.height * area.width / area.height) ∧
      0 ≤ (Compositor.cropFillRect src.width src.height area.width area.height).sx ∧
      (Compositor.cropFillRect src.width src.height area.width area.height).sx
          + (Compositor.cropFillRect src.width src.height area.width area.height).sw
        ≤ src.width ∧
      0 ≤ (Compositor.cropFillRect src.width src.height area.width area.height).sy ∧
      (Compositor.cropFillRect src.width src.height area.width area.height).sy
          + (Compositor.cropFillRect src.width src.height area.width area.height).sh
        ≤ src.height) ∧
    Compositor.adaptiveDraw src area base q = src.px (Compositor.cropMapQ src area q) := by
  refine ⟨Compositor.cropFill_spec src.width src.height area.width area.height hiw hih haw hah, ?_⟩
  simp only [Compositor.adaptiveDraw, Compositor.drawImageQ, Compositor.cropMapQ]
  rw [if_pos hq]

/-- Claim C5 witness: a 16:9 source placed into a 1:1 destination. -/
theorem claim_C5_witness :
    (0 : ℚ) < (⟨16, 9, fun _ => Compositor.blankPix⟩ : Compositor.SrcImg).width ∧
    (0 : ℚ) < (⟨16, 9, fun _ => Compositor.blankPix⟩ : Compositor.SrcImg).height ∧
    (0 : ℚ) < (⟨0, 0, 1, 1⟩ : AreaQ).width ∧
    (0 : ℚ) < (⟨0, 0, 1, 1⟩ : AreaQ).height ∧
    Compositor.inRectQ ⟨0, 0, 1, 1⟩ ((1 : ℚ) / 2, (1 : ℚ) / 2) ∧
    (((Compositor.cropFillRect 16 9 1 1).sw / (Compositor.cropFillRect 16 9 1 1).sh
        = (1 : ℚ) / 1 ∧
      2 * (Compositor.cropFillRect 16 9 1 1).sx = 16 - (Compositor.cropFillRect 16 9 1 1).sw ∧
      2 * (Compositor.cropFillRect 16 9 1 1).sy = 9 - (Compositor.cropFillRect 16 9 1 1).sh ∧
      (Compositor.cropFillRect 16 9 1 1).sh = min 9 (16 * 1 / 1) ∧
      (Compositor.cropFillRect 16 9 1 1).sw = min 16 (9 * 1 / 1) ∧
      0 ≤ (Compositor.cropFillRect 16 9 1 1).sx ∧
      (Compositor.cropFillRect 16 9 1 1).sx + (Compositor.cropFillRect 16 9 1 1).sw ≤ 16 ∧
      0 ≤ (Compositor.cropFillRect 16 9 1 1).sy ∧
      (Compositor.cropFillRect 16 9 1 1).sy + (Compositor.cropFillRect 16 9 1 1).sh ≤ 9) ∧
    Compositor.adaptiveDraw (⟨16, 9, fun _ => Compositor.blankPix⟩ : Compositor.SrcImg)
        ⟨0, 0, 1, 1⟩ (fun _ => Compositor.blankPix) ((1 : ℚ) / 2, (1 : ℚ) / 2)
      = (⟨16, 9, fun _ => Compositor.blankPix⟩ : Compositor.SrcImg).px
          (Compositor.cropMapQ (⟨16, 9, fun _ => Compositor.blankPix⟩ : Compositor.SrcImg)
            ⟨0, 0, 1, 1⟩ ((1 : ℚ) / 2, (1 : ℚ) / 2))) := by
  have h1 : (0 : ℚ) < 16 := by norm_num
  have h2 : (0 : ℚ) < 9 := by norm_num
  have h3 : (0 : ℚ) < 1 := by norm_num
  have hq : Compositor.inRectQ ⟨0, 0, 1, 1⟩ ((1 : ℚ) / 2, (1 : ℚ) / 2) := by
    refine ⟨by norm_num, by norm_num, by norm_num, by norm_num⟩
  exact ⟨h1, h2, h3, h3, hq,
    claim_C5 ⟨16, 9, fun _ => Compositor.blankPix⟩ ⟨0, 0, 1, 1⟩
      (fun _ => Compositor.blankPix) ((1 : ℚ) / 2, (1 : ℚ) / 2) h1 h2 h3 h3 hq⟩

set_option maxRecDepth 20000 in
/-- Claim C6 counterexample: a decode failure resolves with the empty
list, which is exactly what a successful detection on an image with no
blank areas returns — the caller cannot distinguish the two, refuting
the claim that the failure is reported distinguishably. -/
theorem claim_C6_counterexample :
    decodeAndDetect none = decodeAndDetect (some imgDark) := by
  with_unfolding_all decide

set_option maxRecDepth 20000 in
/-- Claim C6 (amended): whenever the image blob cannot be decoded, the
detector's `onerror` handler resolves with the empty list — the same
value as a successful empty detection, hence not distinguishable from
it — and, the detector being pure, no DrawingLayer/History/base-raster
state is mutated. -/
theorem claim_C6 :
    decodeAndDetect none = [] ∧ decodeAndDetect none = decodeAndDetect (some imgDark) := by
  constructor
  · rfl
  · with_unfolding_all decide

/-- Claim C8: the cell detector's tolerance flag lowers the brightness
cutoff (220 versus 240) and shrinks the scan granularity (cell size 15
versus 20); with the flag set the result is exactly the filtered merge
output with the post-hoc expansion mapped over it (and without the flag
no expansion occurs), and the expansion encloses the original rectangle
while staying clamped inside the image bounds. -/
theorem claim_C8 (img : Img) (a : AreaQ) (h : a ∈ CellDetect.preAreas img true) :
    CellDetect.thresholdOf true < CellDetect.thresholdOf false ∧
    CellDetect.cellSizeOf true < CellDetect.cellSizeOf false ∧
    CellDetect.detectBlankAreas img true
      = (CellDetect.preAreas img true).map
          (CellDetect.expand img.width img.height (CellDetect.cellSizeOf true)) ∧
    CellDetect.detectBlankAreas img false = CellDetect.preAreas img false ∧
    (CellDetect.expand img.width img.height (CellDetect.cellSizeOf true) a).x ≤ a.x ∧
    (CellDetect.expand img.width img.height (CellDetect.cellSizeOf true) a).y ≤ a.y ∧
    a.x + a.width ≤ (CellDetect.expand img.width img.height (CellDetect.cellSizeOf true) a).x
        + (CellDetect.expand img.width img.height (CellDetect.cellSizeOf true) a).width ∧
    a.y + a.height ≤ (CellDetect.expand img.width img.height (CellDetect.cellSizeOf true) a).y
        + (CellDetect.expand img.width img.height (CellDetect.cellSizeOf true) a).height ∧
    0 ≤ (CellDetect.expand img.width img.height (CellDetect.cellSizeOf true) a).x ∧
    0 ≤ (CellDetect.expand img.width img.height (CellDetect.cellSizeOf true) a).y ∧
    (CellDetect.expand img.width img.height (CellDetect.cellSizeOf true) a).x
        + (CellDetect.expand img.width img.height (CellDetect.cellSizeOf true) a).width
      ≤ (img.width : ℚ) ∧
    (CellDetect.expand img.width img.height (CellDetect.cellSizeOf true) a).y
        + (CellDetect.expand img.width img.height (CellDetect.cellSizeOf true) a).height
      ≤ (img.height : ℚ) := by
  have hspec := CellDetect.expand_spec (CellDetect.preAreas_inv img true a h)
    (CellDetect.cellSizeOf true)
  exact ⟨by norm_num [CellDetect.thresholdOf], by norm_num [CellDetect.cellSizeOf],
    rfl, rfl, hspec.1, hspec.2.1, hspec.2.2.1, hspec.2.2.2.1, hspec.2.2.2.2.1,
    hspec.2.2.2.2.2.1, hspec.2.2.2.2.2.2.1, hspec.2.2.2.2.2.2.2⟩

set_option maxRecDepth 400000 in
set_option maxHeartbeats 16000000 in
/-- Claim C8 witness: the 15×15 all-white image yields one pre-expansion
rectangle under tolerance. -/
theorem claim_C8_witness :
    (⟨0, 0, 15, 15⟩ : AreaQ) ∈ CellDetect.preAreas white15 true ∧
    (CellDetect.thresholdOf true < CellDetect.thresholdOf false ∧
      CellDetect.cellSizeOf true < CellDetect.cellSizeOf false ∧
      CellDetect.detectBlankAreas white15 true
        = (CellDetect.preAreas white15 true).map
            (CellDetect.expand white15.width white15.height (CellDetect.cellSizeOf true)) ∧
      CellDetect.detectBlankAreas white15 false = CellDetect.preAreas white15 false ∧
      (CellDetect.expand white15.width white15.height (CellDetect.cellSizeOf true)
          ⟨0, 0, 15, 15⟩).x ≤ (⟨0, 0, 15, 15⟩ : AreaQ).x ∧
      (CellDetect.expand white15.width white15.height (CellDetect.cellSizeOf true)
          ⟨0, 0, 15, 15⟩).y ≤ (⟨0, 0, 15, 15⟩ : AreaQ).y ∧
      (⟨0, 0, 15, 15⟩ : AreaQ).x + (⟨0, 0, 15, 15⟩ : AreaQ).width
        ≤ (CellDetect.expand white15.width white15.height (CellDetect.cellSizeOf true)
              ⟨0, 0, 15, 15⟩).x
          + (CellDetect.expand white15.width white15.height (CellDetect.cellSizeOf true)
              ⟨0, 0, 15, 15⟩).width ∧
      (⟨0, 0, 15, 15⟩ : AreaQ).y + (⟨0, 0, 15, 15⟩ : AreaQ).height
        ≤ (CellDetect.expand white15.width white15.height (CellDetect.cellSizeOf true)
              ⟨0, 0, 15, 15⟩).y
          + (CellDetect.expand white15.width white15.height (CellDetect.cellSizeOf true)
              ⟨0, 0, 15, 15⟩).height ∧
      0 ≤ (CellDetect.expand white15.width white15.height (CellDetect.cellSizeOf true)
          ⟨0, 0, 15, 15⟩).x ∧
      0 ≤ (CellDetect.expand white15.width white15.height (CellDetect.cellSizeOf true)
          ⟨0, 0, 15, 15⟩).y ∧
      (CellDetect.expand white15.width white15.height (CellDetect.cellSizeOf true)
            ⟨0, 0, 15, 15⟩).x
          + (CellDetect.expand white15.width white15.height (CellDetect.cellSizeOf true)
              ⟨0, 0, 15, 15⟩).width
        ≤ (white15.width : ℚ) ∧
      (CellDetect.expand white15.width white15.height (CellDetect.cellSizeOf true)
            ⟨0, 0, 15, 15⟩).y
          + (CellDetect.expand white15.width white15.height (CellDetect.cellSizeOf true)
              ⟨0, 0, 15, 15⟩).height
        ≤ (white15.height : ℚ)) := by
  have h : (⟨0, 0, 15, 15⟩ : AreaQ) ∈ CellDetect.preAreas white15 true := by
    with_unfolding_all decide
  exact ⟨h, claim_C8 white15 ⟨0, 0, 15, 15⟩ h⟩

/-- Claim C7: placing an image into a clicked blank area clears the
destination rectangle on the base raster and draws the fitted image
there, persists the updated base raster as `canvasData` with a fresh
timestamp and size, and leaves the drawing layer, the undo/redo history,
and every other field of the form record (id, original image, blank
areas, stored drawing data) untouched; pixels outside the destination
rectangle are unchanged, and pixels inside it hold the fitted image (in
letterbox mode, transparent where the scaled image does not cover). -/
theorem claim_C7 (sizeFn : Compositor.Raster → ℤ) (now : ℤ) (src : Compositor.SrcImg)
    (area : AreaQ) (adaptive : Bool) (st : Compositor.EditorState) (p q : ℚ × ℚ)
    (hiw : 0 < src.width) (hih : 0 < src.height)
    (haw : 0 < area.width) (hah : 0 < area.height)
    (hp : ¬ Compositor.inRectQ area p) (hq : Compositor.inRectQ area q) :
    (Compositor.placeImage sizeFn now src area adaptive st).drawing = st.drawing ∧
    (Compositor.placeImage sizeFn now src area adaptive st).hist = st.hist ∧
    (Compositor.placeImage sizeFn now src area adaptive st).form.id = st.form.id ∧
    (Compositor.placeImage sizeFn now src area adaptive st).form.imageData
      = st.form.imageData ∧
    (Compositor.placeImage sizeFn now src area adaptive st).form.blankAreas
      = st.form.blankAreas ∧
    (Compositor.placeImage sizeFn now src area adaptive st).form.drawingData
      = st.form.drawingData ∧
    (Compositor.placeImage sizeFn now src area adaptive st).form.canvasData
      = some (Compositor.placeImage sizeFn now src area adaptive st).base ∧
    (Compositor.placeImage sizeFn now src area adaptive st).form.timestamp = now ∧
    (Compositor.placeImage sizeFn now src area adaptive st).form.size
      = sizeFn (Compositor.placeImage sizeFn now src area adaptive st).base ∧
    (Compositor.placeImage sizeFn now src area adaptive st).base p = st.base p ∧
    (Compositor.placeImage sizeFn now src area adaptive st).base q
      = (if adaptive then src.px (Compositor.cropMapQ src area q)
          else if Compositor.inRectQ (Compositor.letterRect src area) q then
            src.px (Compositor.letterMapQ src area q)
          else Compositor.blankPix) := by
  refine ⟨rfl, rfl, rfl, rfl, rfl, rfl, rfl, rfl, rfl, ?_, ?_⟩
  · cases adaptive with
    | true =>
      show Compositor.adaptiveDraw src area (Compositor.clearRect st.base area) p = st.base p
      simp only [Compositor.adaptiveDraw, Compositor.drawImageQ, Compositor.clearRect]
      rw [if_neg hp, if_neg hp]
    | false =>
      show Compositor.letterboxDraw src area (Compositor.clearRect st.base area) p = st.base p
      have hpl : ¬ Compositor.inRectQ (Compositor.letterRect src area) p :=
        fun hl => hp (Compositor.letterRect_subset hiw hih haw hah hl)
      simp only [Compositor.letterboxDraw, Compositor.drawImageQ, Compositor.clearRect]
      rw [if_neg hpl, if_neg hp]
  · cases adaptive with
    | true =>
      show Compositor.adaptiveDraw src area (Compositor.clearRect st.base area) q = _
      simp only [Compositor.adaptiveDraw, Compositor.drawImageQ, Compositor.cropMapQ,
        if_true]
      rw [if_pos hq]
    | false =>
      show Compositor.letterboxDraw src area (Compositor.clearRect st.base area) q = _
      by_cases hlq : Compositor.inRectQ (Compositor.letterRect src area) q
      · simp only [Compositor.letterboxDraw, Compositor.drawImageQ, Compositor.letterMapQ,
          Bool.false_eq_true, if_false]
        rw [if_pos hlq, if_pos hlq]
      · simp only [Compositor.letterboxDraw, Compositor.drawImageQ, Compositor.clearRect,
          Bool.false_eq_true, if_false]
        rw [if_neg hlq, if_neg hlq, if_pos hq]

/-- Claim C7 witness at concrete inputs. -/
theorem claim_C7_witness :
    (0 : ℚ) < (⟨4, 4, fun _ => Compositor.blankPix⟩ : Compositor.SrcImg).width ∧
    (0 : ℚ) < (⟨4, 4, fun _ => Compositor.blankPix⟩ : Compositor.SrcImg).height ∧
    (0 : ℚ) < (⟨0, 0, 2, 2⟩ : AreaQ).width ∧
    (0 : ℚ) < (⟨0, 0, 2, 2⟩ : AreaQ).height ∧
    ¬ Compositor.inRectQ ⟨0, 0, 2, 2⟩ ((5 : ℚ), (5 : ℚ)) ∧
    Compositor.inRectQ ⟨0, 0, 2, 2⟩ ((1 : ℚ), (1 : ℚ)) ∧
    ((Compositor.placeImage (fun _ => 3) 42 ⟨4, 4, fun _ => Compositor.blankPix⟩
        ⟨0, 0, 2, 2⟩ true
        ⟨fun _ => Compositor.blankPix, fun _ => Compositor.blankPix, ⟨[fun _ => Compositor.blankPix], []⟩,
          ⟨0, fun _ => Compositor.blankPix, none, none, 0, 0, []⟩⟩).drawing
        = (⟨fun _ => Compositor.blankPix, fun _ => Compositor.blankPix, ⟨[fun _ => Compositor.blankPix], []⟩,
            ⟨0, fun _ => Compositor.blankPix, none, none, 0, 0, []⟩⟩ : Compositor.EditorState).drawing ∧
      (Compositor.placeImage (fun _ => 3) 42 ⟨4, 4, fun _ => Compositor.blankPix⟩
        ⟨0, 0, 2, 2⟩ true
        ⟨fun _ => Compositor.blankPix, fun _ => Compositor.blankPix, ⟨[fun _ => Compositor.blankPix], []⟩,
          ⟨0, fun _ => Compositor.blankPix, none, none, 0, 0, []⟩⟩).hist
        = (⟨fun _ => Compositor.blankPix, fun _ => Compositor.blankPix, ⟨[fun _ => Compositor.blankPix], []⟩,
            ⟨0, fun _ => Compositor.blankPix, none, none, 0, 0, []⟩⟩ : Compositor.EditorState).hist ∧
      (Compositor.placeImage (fun _ => 3) 42 ⟨4, 4, fun _ => Compositor.blankPix⟩
        ⟨0, 0, 2, 2⟩ true
        ⟨fun _ => Compositor.blankPix, fun _ => Compositor.blankPix, ⟨[fun _ => Compositor.blankPix], []⟩,
          ⟨0, fun _ => Compositor.blankPix, none, none, 0, 0, []⟩⟩).form.id
        = (⟨fun _ => Compositor.blankPix, fun _ => Compositor.blankPix, ⟨[fun _ => Compositor.blankPix], []⟩,
            ⟨0, fun _ => Compositor.blankPix, none, none, 0, 0, []⟩⟩ : Compositor.EditorState).form.id ∧
      (Compositor.placeImage (fun _ => 3) 42 ⟨4, 4, fun _ => Compositor.blankPix⟩
        ⟨0, 0, 2, 2⟩ true
        ⟨fun _ => Compositor.blankPix, fun _ => Compositor.blankPix, ⟨[fun _ => Compositor.blankPix], []⟩,
          ⟨0, fun _ => Compositor.blankPix, none, none, 0, 0, []⟩⟩).form.imageData
        = (⟨fun _ => Compositor.blankPix, fun _ => Compositor.blankPix, ⟨[fun _ => Compositor.blankPix], []⟩,
            ⟨0, fun _ => Compositor.blankPix, none, none, 0, 0, []⟩⟩ : Compositor.EditorState).form.imageData ∧
      (Compositor.placeImage (fun _ => 3) 42 ⟨4, 4, fun _ => Compositor.blankPix⟩
        ⟨0, 0, 2, 2⟩ true
        ⟨fun _ => Compositor.blankPix, fun _ => Compositor.blankPix, ⟨[fun _ => Compositor.blankPix], []⟩,
          ⟨0, fun _ => Compositor.blankPix, none, none, 0, 0, []⟩⟩).form.blankAreas
        = (⟨fun _ => Compositor.blankPix, fun _ => Compositor.blankPix, ⟨[fun _ => Compositor.blankPix], []⟩,
            ⟨0, fun _ => Compositor.blankPix, none, none, 0, 0, []⟩⟩ : Compositor.EditorState).form.blankAreas ∧
      (Compositor.placeImage (fun _ => 3) 42 ⟨4, 4, fun _ => Compositor.blankPix⟩
        ⟨0, 0, 2, 2⟩ true
        ⟨fun _ => Compositor.blankPix, fun _ => Compositor.blankPix, ⟨[fun _ => Compositor.blankPix], []⟩,
          ⟨0, fun _ => Compositor.blankPix, none, none, 0, 0, []⟩⟩).form.drawingData
        = (⟨fun _ => Compositor.blankPix, fun _ => Compositor.blankPix, ⟨[fun _ => Compositor.blankPix], []⟩,
            ⟨0, fun _ => Compositor.blankPix, none, none, 0, 0, []⟩⟩ : Compositor.EditorState).form.drawingData ∧
      (Compositor.placeImage (fun _ => 3) 42 ⟨4, 4, fun _ => Compositor.blankPix⟩
        ⟨0, 0, 2, 2⟩ true
        ⟨fun _ => Compositor.blankPix, fun _ => Compositor.blankPix, ⟨[fun _ => Compositor.blankPix], []⟩,
          ⟨0, fun _ => Compositor.blankPix, none, none, 0, 0, []⟩⟩).form.canvasData
        = some (Compositor.placeImage (fun _ => 3) 42 ⟨4, 4, fun _ => Compositor.blankPix⟩
            ⟨0, 0, 2, 2⟩ true
            ⟨fun _ => Compositor.blankPix, fun _ => Compositor.blankPix, ⟨[fun _ => Compositor.blankPix], []⟩,
              ⟨0, fun _ => Compositor.blankPix, none, none, 0, 0, []⟩⟩).base ∧
      (Compositor.placeImage (fun _ => 3) 42 ⟨4, 4, fun _ => Compositor.blankPix⟩
        ⟨0, 0, 2, 2⟩ true
        ⟨fun _ => Compositor.blankPix, fun _ => Compositor.blankPix, ⟨[fun _ => Compositor.blankPix], []⟩,
          ⟨0, fun _ => Compositor.blankPix, none, none, 0, 0, []⟩⟩).form.timestamp = 42 ∧
      (Compositor.placeImage (fun _ => 3) 42 ⟨4, 4, fun _ => Compositor.blankPix⟩
        ⟨0, 0, 2, 2⟩ true
        ⟨fun _ => Compositor.blankPix, fun _ => Compositor.blankPix, ⟨[fun _ => Compositor.blankPix], []⟩,
          ⟨0, fun _ => Compositor.blankPix, none, none, 0, 0, []⟩⟩).form.size
        = (fun _ => (3 : ℤ)) (Compositor.placeImage (fun _ => 3) 42
            ⟨4, 4, fun _ => Compositor.blankPix⟩ ⟨0, 0, 2, 2⟩ true
            ⟨fun _ => Compositor.blankPix, fun _ => Compositor.blankPix, ⟨[fun _ => Compositor.blankPix], []⟩,
              ⟨0, fun _ => Compositor.blankPix, none, none, 0, 0, []⟩⟩).base ∧
      (Compositor.placeImage (fun _ => 3) 42 ⟨4, 4, fun _ => Compositor.blankPix⟩
        ⟨0, 0, 2, 2⟩ true
        ⟨fun _ => Compositor.blankPix, fun _ => Compositor.blankPix, ⟨[fun _ => Compositor.blankPix], []⟩,
          ⟨0, fun _ => Compositor.blankPix, none, none, 0, 0, []⟩⟩).base ((5 : ℚ), (5 : ℚ))
        = (⟨fun _ => Compositor.blankPix, fun _ => Compositor.blankPix, ⟨[fun _ => Compositor.blankPix], []⟩,
            ⟨0, fun _ => Compositor.blankPix, none, none, 0, 0, []⟩⟩ : Compositor.EditorState).base
            ((5 : ℚ), (5 : ℚ)) ∧
      (Compositor.placeImage (fun _ => 3) 42 ⟨4, 4, fun _ => Compositor.blankPix⟩
        ⟨0, 0, 2, 2⟩ true
        ⟨fun _ => Compositor.blankPix, fun _ => Compositor.blankPix, ⟨[fun _ => Compositor.blankPix], []⟩,
          ⟨0, fun _ => Compositor.blankPix, none, none, 0, 0, []⟩⟩).base ((1 : ℚ), (1 : ℚ))
        = (if (true : Bool) then (⟨4, 4, fun _ => Compositor.blankPix⟩ : Compositor.SrcImg).px
              (Compositor.cropMapQ ⟨4, 4, fun _ => Compositor.blankPix⟩ ⟨0, 0, 2, 2⟩
                ((1 : ℚ), (1 : ℚ)))
            else if Compositor.inRectQ
                (Compositor.letterRect ⟨4, 4, fun _ => Compositor.blankPix⟩ ⟨0, 0, 2, 2⟩)
                ((1 : ℚ), (1 : ℚ)) then
              (⟨4, 4, fun _ => Compositor.blankPix⟩ : Compositor.SrcImg).px
                (Compositor.letterMapQ ⟨4, 4, fun _ => Compositor.blankPix⟩ ⟨0, 0, 2, 2⟩
                  ((1 : ℚ), (1 : ℚ)))
            else Compositor.blankPix)) := by
  have h4 : (0 : ℚ) < 4 := by norm_num
  have h2 : (0 : ℚ) < 2 := by norm_num
  have hp : ¬ Compositor.inRectQ ⟨0, 0, 2, 2⟩ ((5 : ℚ), (5 : ℚ)) := by
    intro hcon
    obtain ⟨_, hlt, _, _⟩ := hcon
    norm_num at hlt
  have hq : Compositor.inRectQ ⟨0, 0, 2, 2⟩ ((1 : ℚ), (1 : ℚ)) :=
    ⟨by norm_num, by norm_num, by norm_num, by norm_num⟩
  exact ⟨h4, h4, h2, h2, hp, hq,
    claim_C7 (fun _ => 3) 42 ⟨4, 4, fun _ => Compositor.blankPix⟩ ⟨0, 0, 2, 2⟩ true
      ⟨fun _ => Compositor.blankPix, fun _ => Compositor.blankPix, ⟨[fun _ => Compositor.blankPix], []⟩,
        ⟨0, fun _ => Compositor.blankPix, none, none, 0, 0, []⟩⟩
      ((5 : ℚ), (5 : ℚ)) ((1 : ℚ), (1 : ℚ)) h4 h4 h2 h2 hp hq⟩
